import Mathlib

/-!
# Verification of the dnscontrol DNS record model (`models/dns.go`)

Shallow embedding of the record model and its wire codec:

* `RecordConfig`, `DomainConfig`, `Records.Grouped`, `RecordConfig.RR`
  (encode), `RRToRecord` (decode), `RecordConfig.String`, `InterfaceToIP`,
  and the gob-based deep `Copy`.

Go strings are modelled as `List Char` (`Str`); Go maps are modelled as
association lists (key order standing in for Go's unspecified iteration
order where it matters); the wire library's RR objects are an inductive
`RR` carrying the header plus per-type payload.  External library
functions used by the code (`miekg/dns` zone-line parsing, `net.ParseIP`,
`dnsutil.TrimDomainName`, `transform.UintToIP`) are modelled from their
documented behaviour on the fragment the record model exercises.
-/

set_option maxRecDepth 10000

namespace DnsControl

/-- Go `string`, modelled as a list of characters. -/
abbrev Str := List Char

/-- Embed a Lean string literal. -/
def str (s : String) : Str := s.data

/-- ASCII lower-casing of one character (`strings.ToLower` on the ASCII
fragment that DNS names use). -/
def lowerChar (c : Char) : Char :=
  if 'A' ≤ c ∧ c ≤ 'Z' then Char.ofNat (c.toNat + 32) else c

/-- `strings.ToLower` (ASCII fragment). -/
def lower (s : Str) : Str := s.map lowerChar

/-- `strings.TrimSuffix s suf`: drop `suf` from the end of `s` when present. -/
def trimSuffix (s suf : Str) : Str :=
  if suf.length ≤ s.length ∧ s.drop (s.length - suf.length) = suf then
    s.take (s.length - suf.length)
  else s

/-- `dns.Fqdn`: append a trailing dot unless already present. -/
def fqdn (s : Str) : Str :=
  if s ≠ [] ∧ s.getLast? = some '.' then s else s ++ ['.']

/-- Decimal digit to character. -/
def digitToChar : Nat → Char
  | 0 => '0' | 1 => '1' | 2 => '2' | 3 => '3' | 4 => '4'
  | 5 => '5' | 6 => '6' | 7 => '7' | 8 => '8' | 9 => '9'
  | _ => '*'

/-- Character to decimal digit, `none` when not a digit. -/
def charToDigit (c : Char) : Option Nat :=
  if c = '0' then some 0 else if c = '1' then some 1 else
  if c = '2' then some 2 else if c = '3' then some 3 else
  if c = '4' then some 4 else if c = '5' then some 5 else
  if c = '6' then some 6 else if c = '7' then some 7 else
  if c = '8' then some 8 else if c = '9' then some 9 else none

/-- Base-`b` digits, little-endian, with explicit fuel so that the kernel
can evaluate it (`Nat.digits` is well-founded and does not reduce). -/
def digitsFuel (b : Nat) : Nat → Nat → List Nat
  | _, 0 => []
  | 0, _ + 1 => []
  | fuel + 1, n + 1 => (n + 1) % b :: digitsFuel b fuel ((n + 1) / b)

/-- Decimal rendering of a natural number (`strconv.FormatUint`). -/
def printNat (n : Nat) : Str :=
  if n = 0 then ['0'] else ((digitsFuel 10 n n).reverse.map digitToChar)

/-- Decimal parsing of a token (the zone-line parser's TTL field). -/
def parseNat (s : Str) : Option Nat :=
  if s ≠ [] ∧ s.all (fun c => (charToDigit c).isSome) then
    some (Nat.ofDigits 10 ((s.map (fun c => (charToDigit c).getD 0)).reverse))
  else none

/-- Split a character list on a separator character (`strings.Split`). -/
def splitOnC (sep : Char) : Str → List Str
  | [] => [[]]
  | c :: cs =>
    if c = sep then [] :: splitOnC sep cs
    else
      match splitOnC sep cs with
      | t :: ts => (c :: t) :: ts
      | [] => [[c]]

/-- The zone-line tokenizer splits on single spaces. -/
def splitSp : Str → List Str := splitOnC ' '

/-- Join strings with single spaces (`strings.Join xs " "`). -/
def joinSp : List Str → Str
  | [] => []
  | [x] => x
  | x :: xs => x ++ ' ' :: joinSp xs

/-! ## IP addresses (`net.IP`, `net.ParseIP`, `transform.UintToIP`)

`net.IP` is modelled as either four IPv4 octets or eight 16-bit IPv6
groups.  The parser/renderer model the standard library's behaviour on
the textual forms the record model exchanges (dotted quad; hex-group
IPv6 with at most one `::`). -/

/-- A parsed IP address: IPv4 octets or IPv6 16-bit groups. -/
inductive IP where
  | v4 (a b c d : Nat)
  | v6 (groups : List Nat)
deriving DecidableEq, Repr

/-- Hex digit value of a character, `none` when not a hex digit. -/
def hexCharToDigit (c : Char) : Option Nat :=
  match charToDigit c with
  | some d => some d
  | none =>
    if c = 'a' ∨ c = 'A' then some 10 else
    if c = 'b' ∨ c = 'B' then some 11 else
    if c = 'c' ∨ c = 'C' then some 12 else
    if c = 'd' ∨ c = 'D' then some 13 else
    if c = 'e' ∨ c = 'E' then some 14 else
    if c = 'f' ∨ c = 'F' then some 15 else none

/-- Lowercase hex digit character. -/
def hexDigitToChar (d : Nat) : Char :=
  if d < 10 then digitToChar d
  else if d = 10 then 'a' else if d = 11 then 'b' else if d = 12 then 'c'
  else if d = 13 then 'd' else if d = 14 then 'e' else if d = 15 then 'f'
  else '*'

/-- Lowercase hex rendering without leading zeros. -/
def printHex (n : Nat) : Str :=
  if n = 0 then ['0'] else ((digitsFuel 16 n n).reverse.map hexDigitToChar)

/-- One dotted-quad field: decimal, at most 3 digits, value ≤ 255. -/
def parseByte (s : Str) : Option Nat :=
  match parseNat s with
  | some n => if n ≤ 255 ∧ s.length ≤ 3 then some n else none
  | none => none

/-- Parse a dotted-quad IPv4 literal. -/
def parseIPv4 (s : Str) : Option IP :=
  match splitOnC '.' s with
  | [a, b, c, d] =>
    match parseByte a, parseByte b, parseByte c, parseByte d with
    | some a', some b', some c', some d' => some (.v4 a' b' c' d')
    | _, _, _, _ => none
  | _ => none

/-- One IPv6 group: hex, 1–4 digits. -/
def parseHexGroup (s : Str) : Option Nat :=
  if s ≠ [] ∧ s.length ≤ 4 ∧ s.all (fun c => (hexCharToDigit c).isSome) then
    some (Nat.ofDigits 16 ((s.map (fun c => (hexCharToDigit c).getD 0)).reverse))
  else none

/-- Split at the first `::`, returning the parts before and after it. -/
def splitDoubleColon : Str → Option (Str × Str)
  | [] => none
  | ':' :: ':' :: rest => some ([], rest)
  | c :: rest =>
    match splitDoubleColon rest with
    | some (l, r) => some (c :: l, r)
    | none => none

/-- Hex groups of one side of a `::`; the empty side has no groups. -/
def sideGroups (s : Str) : Option (List Nat) :=
  if s = [] then some [] else (splitOnC ':' s).mapM parseHexGroup

/-- Parse an IPv6 literal in hex-group form, with at most one `::`. -/
def parseIPv6 (s : Str) : Option IP :=
  match splitDoubleColon s with
  | none =>
    match (splitOnC ':' s).mapM parseHexGroup with
    | some gs => if gs.length = 8 then some (.v6 gs) else none
    | none => none
  | some (l, r) =>
    if (splitDoubleColon r).isSome then none
    else
      match sideGroups l, sideGroups r with
      | some gl, some gr =>
        if gl.length + gr.length ≤ 7 then
          some (.v6 (gl ++ List.replicate (8 - gl.length - gr.length) 0 ++ gr))
        else none
      | _, _ => none

/-- `net.ParseIP`: dispatch on the first `.` or `:` like the standard
library does. -/
def parseIP (s : Str) : Option IP :=
  match s.find? (fun c => c = '.' ∨ c = ':') with
  | some c => if c = '.' then parseIPv4 s else parseIPv6 s
  | none => none

/-- Render a dotted quad. -/
def renderIPv4 (a b c d : Nat) : Str :=
  printNat a ++ '.' :: printNat b ++ '.' :: printNat c ++ '.' :: printNat d

/-- Length of the zero-group run starting at the head. -/
def zeroRun : List Nat → Nat
  | 0 :: rest => zeroRun rest + 1
  | _ => 0

/-- Leftmost longest run of ≥ 2 zero groups, as (start, length). -/
def bestZeroRun (gs : List Nat) : Option (Nat × Nat) :=
  let cands := (List.range gs.length).map (fun i => (i, zeroRun (gs.drop i)))
  let best := cands.foldl (fun acc c => if c.2 > acc.2 then c else acc) (0, 0)
  if best.2 ≥ 2 then some best else none

/-- Join hex groups with `:`. -/
def joinColon : List Nat → Str
  | [] => []
  | [g] => printHex g
  | g :: gs => printHex g ++ ':' :: joinColon gs

/-- `net.IP.String` for an IPv6 group vector: IPv4-mapped addresses render
as dotted quads; otherwise the leftmost longest run of at least two zero
groups is compressed to `::`. -/
def renderIPv6 (gs : List Nat) : Str :=
  match gs with
  | [0, 0, 0, 0, 0, 0xffff, hi, lo] =>
    renderIPv4 (hi / 256) (hi % 256) (lo / 256) (lo % 256)
  | _ =>
    match bestZeroRun gs with
    | none => joinColon gs
    | some (i, l) => joinColon (gs.take i) ++ ':' :: ':' :: joinColon (gs.drop (i + l))

/-- `net.IP.String`. -/
def renderIP : IP → Str
  | .v4 a b c d => renderIPv4 a b c d
  | .v6 gs => renderIPv6 gs

/-- Modelled from the spec: `transform.UintToIP` (not under `src/`)
interprets a 32-bit unsigned integer as a packed IPv4 address in network
byte order. -/
def UintToIP (u : Nat) : IP :=
  .v4 (u / 16777216 % 256) (u / 65536 % 256) (u / 256 % 256) (u % 256)

/-- A dynamically-typed Go value handed to `InterfaceToIP` (JSON numbers
arrive as `float64`; the claims cover the 32-bit unsigned range, on which
Go's `uint32(v)` conversion is the value itself). -/
inductive GoVal where
  | vnum (n : Nat)
  | vstr (s : Str)
  | vbool (b : Bool)
deriving DecidableEq, Repr

/-- `reflect.TypeOf(i)` rendered as a string. -/
def typeName : GoVal → Str
  | .vnum _ => str "float64"
  | .vstr _ => str "string"
  | .vbool _ => str "bool"

/-- `InterfaceToIP` from `models/dns.go`. -/
def InterfaceToIP : GoVal → Except Str IP
  | .vnum n => .ok (UintToIP (n % 4294967296))
  | .vstr s =>
    match parseIP s with
    | some ip => .ok ip
    | none => .error (s ++ str " is not a valid ip address")
  | v => .error (str "Cannot convert type " ++ typeName v ++ str " to ip.")

/-! ## The wire model (`miekg/dns` fragment) and the record model -/

/-- `models/dns.go`: `const DefaultTTL = uint32(300)`. -/
def DefaultTTL : Nat := 300

/-- `dns.ClassINET`. -/
def ClassINET : Nat := 1

/-- `dns.StringToType`, on the record types this record model handles
(the numeric codes are the standard DNS RR type codes). -/
def StringToType (s : Str) : Option Nat :=
  if s = str "A" then some 1 else
  if s = str "NS" then some 2 else
  if s = str "CNAME" then some 5 else
  if s = str "SOA" then some 6 else
  if s = str "MX" then some 15 else
  if s = str "TXT" then some 16 else
  if s = str "AAAA" then some 28 else none

/-- `dns.TypeToString`; unknown codes give the empty string (a Go map
read of a missing key yields the zero value). -/
def TypeToString (n : Nat) : Str :=
  if n = 1 then str "A" else
  if n = 2 then str "NS" else
  if n = 5 then str "CNAME" else
  if n = 6 then str "SOA" else
  if n = 15 then str "MX" else
  if n = 16 then str "TXT" else
  if n = 28 then str "AAAA" else []

/-- `dns.RR_Header`. -/
structure RRHeader where
  Name : Str
  Rrtype : Nat
  Class : Nat
  Ttl : Nat
deriving DecidableEq, Repr

/-- A wire-level resource record (`dns.RR`): the header plus the
per-type payload of the concrete types this model exchanges; `other`
stands for every concrete `dns.RR` type outside that set. -/
inductive RR where
  | a (hdr : RRHeader) (ip : IP)
  | aaaa (hdr : RRHeader) (ip : IP)
  | cname (hdr : RRHeader) (target : Str)
  | mx (hdr : RRHeader) (preference : Nat) (mxTarget : Str)
  | ns (hdr : RRHeader) (nsTarget : Str)
  | soa (hdr : RRHeader) (nsName mbox : Str) (serial refresh retry expire minttl : Nat)
  | txt (hdr : RRHeader) (txts : List Str)
  | other (hdr : RRHeader)
deriving DecidableEq, Repr

/-- `rr.Header()`. -/
def RR.Header : RR → RRHeader
  | .a hdr _ => hdr
  | .aaaa hdr _ => hdr
  | .cname hdr _ => hdr
  | .mx hdr _ _ => hdr
  | .ns hdr _ => hdr
  | .soa hdr _ _ _ _ _ _ _ => hdr
  | .txt hdr _ => hdr
  | .other hdr => hdr

/-- `models.RecordConfig`.  Go's `Type` field is `RType` here (`Type` is
reserved in Lean); `Original` is carried only by the heap model of §Copy
since the codec never touches it. -/
structure RecordConfig where
  RType : Str := []
  Name : Str := []
  Target : Str := []
  TTL : Nat := 0
  Metadata : List (Str × Str) := []
  NameFQDN : Str := []
  Priority : Nat := 0
deriving DecidableEq, Repr

/-- Result of the encode path: `log.Fatalf` aborts the process, so the
encoder either aborts (`fatal`) or produces a wire RR. -/
inductive EncodeResult where
  | fatal (msg : Str)
  | ok (rr : RR)
deriving DecidableEq, Repr

/-- Whether the encoder returned a wire RR (rather than aborting). -/
def EncodeResult.isOk : EncodeResult → Bool
  | .ok _ => true
  | .fatal _ => false

/-- The per-type payload construction of the zone parser, given the
already-parsed header, the type code and the remaining tokens. -/
def rrFromParts (hdr : RRHeader) (rdtype : Nat) (rest : List Str) : Option RR :=
  if rdtype = 1 then
    match rest with
    | [t] => match parseIPv4 t with
             | some ip => some (.a hdr ip)
             | none => none
    | _ => none
  else if rdtype = 28 then
    match rest with
    | [t] => match parseIPv6 t with
             | some ip => some (.aaaa hdr ip)
             | none => none
    | _ => none
  else if rdtype = 5 then
    match rest with
    | [t] => if t ≠ [] then some (.cname hdr (fqdn t)) else none
    | _ => none
  else if rdtype = 2 then
    match rest with
    | [t] => if t ≠ [] then some (.ns hdr (fqdn t)) else none
    | _ => none
  else if rdtype = 15 then
    match rest with
    | [p, t] => match parseNat p with
                | some pref => if t ≠ [] then some (.mx hdr pref (fqdn t)) else none
                | none => none
    | _ => none
  else if rdtype = 16 then
    if rest ≠ [] then some (.txt hdr rest) else none
  else if rdtype = 6 then
    match rest with
    | [nsf, mb, se, re, rt, ex, mi] =>
      match parseNat se, parseNat re, parseNat rt, parseNat ex, parseNat mi with
      | some se', some re', some rt', some ex', some mi' =>
        some (.soa hdr (fqdn nsf) (fqdn mb) se' re' rt' ex' mi')
      | _, _, _, _, _ => none
    | _ => none
  else none

/-- The zone parser applied to the token list of a one-line record. -/
def newRRFromTokens : List Str → Option RR
  | name :: ttlTok :: inTok :: typeTok :: rest =>
    if inTok ≠ str "IN" then none
    else
      match parseNat ttlTok, StringToType typeTok with
      | some ttl, some rdtype =>
        rrFromParts { Name := fqdn name, Rrtype := rdtype,
                      Class := ClassINET, Ttl := ttl } rdtype rest
      | _, _ => none
  | _ => none

/-- `dns.NewRR` on the one-line `name ttl IN TYPE target` zone form the
encoder synthesizes (modelled from the zone parser's behaviour on that
fragment: tokens are space-separated; the owner and name-valued targets
are made fully qualified; numeric fields are decimal). -/
def NewRR (s : Str) : Option RR :=
  newRRFromTokens (splitSp s)

/-- The `%s %s IN %s %s` zone line the encoder synthesizes for the
generic path (`fmt.Sprintf` at line 128), with the default-TTL
substitution applied to the textual TTL field. -/
def synthLine (r : RecordConfig) : Str :=
  let ttl := if r.TTL = 0 then printNat DefaultTTL else printNat r.TTL
  r.NameFQDN ++ ' ' :: ttl ++ ' ' :: str "IN" ++ ' ' :: r.RType ++ ' ' :: r.Target

/-- `RecordConfig.RR` (encode, `models/dns.go` lines 90–134). -/
def RecordConfig.RR (r : RecordConfig) : EncodeResult :=
  match StringToType r.RType with
  | none => .fatal (str "No such DNS type as " ++ r.RType)
  | some rdtype =>
    let hdr : RRHeader :=
      { Name := r.NameFQDN ++ ['.'], Rrtype := rdtype, Class := ClassINET, Ttl := r.TTL }
    if rdtype = 15 then EncodeResult.ok (.mx hdr r.Priority r.Target)
    else if rdtype = 16 then EncodeResult.ok (.txt hdr [r.Target])
    else
      match NewRR (synthLine r) with
      | some rr => EncodeResult.ok rr
      | none => .fatal (str "NewRR rejected RecordConfig: " ++ synthLine r)

/-- `dnsutil.TrimDomainName` (external helper): strip the zone origin
suffix, keeping the case of the part kept; the origin itself becomes
`"@"`.  DNS name matching is case-insensitive (the library compares via
`IsSubDomain`/`CompareDomainName`, which downcase), so both the apex
check and the suffix match compare lowercased names. -/
def TrimDomainName (s origin : Str) : Str :=
  if s = [] then str "@"
  else
    let o := fqdn origin
    let s1 := fqdn s
    if lower s1 = lower o then str "@"
    else if (o.length + 1 ≤ s1.length ∧
             lower (s1.drop (s1.length - (o.length + 1))) = lower ('.' :: o)) then
      s1.take (s1.length - (o.length + 1))
    else s1

/-- `RRToRecord` (decode, `models/dns.go` lines 136–166). -/
def RRToRecord (rr : RR) (origin : Str) : Except Str RecordConfig :=
  let header := rr.Header
  let base : RecordConfig :=
    { RType := TypeToString header.Rrtype
      NameFQDN := lower (trimSuffix header.Name (str "."))
      Name := lower (TrimDomainName header.Name origin)
      TTL := header.Ttl }
  match rr with
  | .a _ ip => .ok { base with Target := renderIP ip }
  | .aaaa _ ip => .ok { base with Target := renderIP ip }
  | .cname _ t => .ok { base with Target := t }
  | .mx _ pref t => .ok { base with Target := t, Priority := pref }
  | .ns _ t => .ok { base with Target := t }
  | .soa _ nsName mb se re rt ex mi =>
    .ok { base with Target :=
      nsName ++ ' ' :: mb ++ ' ' :: printNat se ++ ' ' :: printNat re ++
      ' ' :: printNat rt ++ ' ' :: printNat ex ++ ' ' :: printNat mi }
  | .txt _ txts => .ok { base with Target := joinSp txts }
  | .other _ =>
    .error (str "unimplemented zone record type=" ++ TypeToString header.Rrtype)

/-- `RecordConfig.String`, with the nil pointer receiver modelled as
`none` (the metadata pairs render in the association list's order,
standing in for Go's unspecified map iteration order). -/
def RecordConfig.String : Option RecordConfig → Str
  | none => str "?"
  | some r =>
    let content := r.RType ++ ' ' :: r.NameFQDN ++ ' ' :: r.Target ++ ' ' :: printNat r.TTL
    let content :=
      if r.RType = str "MX" then content ++ ' ' :: str "priority=" ++ printNat r.Priority
      else content
    r.Metadata.foldl (fun acc kv => acc ++ ' ' :: kv.1 ++ '=' :: kv.2) content

/-- `models.RecordKey`. -/
structure RecordKey where
  RType : Str
  Name : Str
deriving DecidableEq, Repr

/-- `models.Records`. -/
abbrev Records := List RecordConfig

/-- `Records.Grouped`, with the Go map modelled as a total function from
keys to the (possibly empty) group appended under that key. -/
def Records.Grouped (rs : Records) : RecordKey → Records :=
  rs.foldl
    (fun m r => fun k =>
      if k = { RType := r.RType, Name := r.Name } then m k ++ [r] else m k)
    (fun _ => [])

/-! ## Deep copy (`DomainConfig.Copy` / `copyObj` via gob)

Go's mutable backing stores (maps, the `*RecordConfig` and `*Nameserver`
objects behind the slices) are modelled as cells in an explicit heap,
addressed by index; a `DomainConfig` holds references into it.  `copyObj`
(gob encode/decode) materialises fresh cells for every nested store, so
the copy's references are disjoint from the source's — which is exactly
the property the spec claims.  A mutation of a backing store is a
`List.set` on the heap. -/

/-- The opaque `Original interface{}` back-reference: nil, a value gob
can encode, or a value of a concrete type not registered with gob (on
which `enc.Encode` fails). -/
inductive OrigVal where
  | nilRef
  | registered (tag : Nat)
  | unregistered
deriving DecidableEq, Repr

/-- A `RecordConfig` object as it sits on the heap: plain fields by
value, the `Metadata` map as a reference. -/
structure RecCell where
  RType : Str := []
  Name : Str := []
  Target : Str := []
  TTL : Nat := 0
  MetadataRef : Nat := 0
  NameFQDN : Str := []
  Priority : Nat := 0
  Original : OrigVal := .nilRef
deriving DecidableEq, Repr

/-- `models.Nameserver`. -/
structure NameserverV where
  Name : Str := []
  Target : Str := []
deriving DecidableEq, Repr

/-- One mutable backing store. -/
inductive Cell where
  | smap (m : List (Str × Str))
  | imap (m : List (Str × Nat))
  | rcell (r : RecCell)
  | ncell (n : NameserverV)
deriving DecidableEq, Repr

abbrev Heap := List Cell

def readSmap (h : Heap) (a : Nat) : List (Str × Str) :=
  match h[a]? with
  | some (.smap m) => m
  | _ => []

def readImap (h : Heap) (a : Nat) : List (Str × Nat) :=
  match h[a]? with
  | some (.imap m) => m
  | _ => []

def readRec (h : Heap) (a : Nat) : RecCell :=
  match h[a]? with
  | some (.rcell r) => r
  | _ => {}

def readNs (h : Heap) (a : Nat) : NameserverV :=
  match h[a]? with
  | some (.ncell n) => n
  | _ => {}

/-- `models.DomainConfig`, with the mutable stores as heap references. -/
structure DomainConfigH where
  Name : Str := []
  Registrar : Str := []
  DNSProvidersRef : Nat := 0
  MetadataRef : Nat := 0
  RecordRefs : List Nat := []
  NameserverRefs : List Nat := []
  KeepUnknown : Bool := false
deriving DecidableEq, Repr

/-- A record read out to a pure value (field-by-field comparison view). -/
structure RecView where
  RType : Str
  Name : Str
  Target : Str
  TTL : Nat
  Metadata : List (Str × Str)
  NameFQDN : Str
  Priority : Nat
  Original : OrigVal
deriving DecidableEq, Repr

/-- A domain config read out to a pure value. -/
structure DomainView where
  Name : Str
  Registrar : Str
  DNSProviders : List (Str × Nat)
  Metadata : List (Str × Str)
  Records : List RecView
  Nameservers : List NameserverV
  KeepUnknown : Bool
deriving DecidableEq, Repr

def viewRec (h : Heap) (a : Nat) : RecView :=
  let r := readRec h a
  { RType := r.RType, Name := r.Name, Target := r.Target, TTL := r.TTL
    Metadata := readSmap h r.MetadataRef
    NameFQDN := r.NameFQDN, Priority := r.Priority, Original := r.Original }

def viewDC (h : Heap) (dc : DomainConfigH) : DomainView :=
  { Name := dc.Name, Registrar := dc.Registrar
    DNSProviders := readImap h dc.DNSProvidersRef
    Metadata := readSmap h dc.MetadataRef
    Records := dc.RecordRefs.map (viewRec h)
    Nameservers := dc.NameserverRefs.map (readNs h)
    KeepUnknown := dc.KeepUnknown }

/-- The re-materialised record cell: same fields, metadata map moved to a
fresh reference. -/
def copyCell (r : RecCell) (n : Nat) : RecCell :=
  { r with MetadataRef := n }

/-- gob re-materialises each record (and its metadata map) as fresh
storage. -/
def copyRecords (h : Heap) : List Nat → Heap × List Nat
  | [] => (h, [])
  | a :: rest =>
    let r := readRec h a
    let m := readSmap h r.MetadataRef
    let h2 := h ++ [.smap m, .rcell (copyCell r h.length)]
    let p := copyRecords h2 rest
    (p.1, (h.length + 1) :: p.2)

def copyNameservers (h : Heap) : List Nat → Heap × List Nat
  | [] => (h, [])
  | a :: rest =>
    let n := readNs h a
    let h2 := h ++ [.ncell n]
    let p := copyNameservers h2 rest
    (p.1, h.length :: p.2)

/-- `enc.Encode` succeeds iff every interface value reached is of a
gob-registered type. -/
def gobCanEncode (h : Heap) (dc : DomainConfigH) : Bool :=
  dc.RecordRefs.all (fun a => (readRec h a).Original ≠ OrigVal.unregistered)

/-- `DomainConfig.Copy` via `copyObj` (gob encode into a buffer, decode
into a fresh object): every nested store of the result is fresh. -/
def DomainConfig.Copy (h : Heap) (dc : DomainConfigH) :
    Except Str (Heap × DomainConfigH) :=
  if ¬ gobCanEncode h dc then .error (str "gob: type not registered for interface")
  else
    let h1 := h ++ [.imap (readImap h dc.DNSProvidersRef),
                    .smap (readSmap h dc.MetadataRef)]
    let p := copyRecords h1 dc.RecordRefs
    let q := copyNameservers p.1 dc.NameserverRefs
    .ok (q.1, { dc with DNSProvidersRef := h.length, MetadataRef := h.length + 1,
                        RecordRefs := p.2, NameserverRefs := q.2 })

/-- A record reference valid below heap bound `n` (the cell and its
metadata map both live below `n`). -/
@[reducible] def recBounded (h : Heap) (a n : Nat) : Prop :=
  a < n ∧ (readRec h a).MetadataRef < n

/-- Every reference reachable from `dc` lives below `n`. -/
@[reducible] def dcBounded (h : Heap) (dc : DomainConfigH) (n : Nat) : Prop :=
  dc.DNSProvidersRef < n ∧ dc.MetadataRef < n ∧
  (∀ a ∈ dc.RecordRefs, recBounded h a n) ∧
  (∀ a ∈ dc.NameserverRefs, a < n)

/-- A record reference living at or above `n`. -/
@[reducible] def recLower (h : Heap) (a n : Nat) : Prop :=
  n ≤ a ∧ n ≤ (readRec h a).MetadataRef

/-- Every reference reachable from `dc` lives at or above `n`. -/
@[reducible] def dcLower (h : Heap) (dc : DomainConfigH) (n : Nat) : Prop :=
  n ≤ dc.DNSProvidersRef ∧ n ≤ dc.MetadataRef ∧
  (∀ a ∈ dc.RecordRefs, recLower h a n) ∧
  (∀ a ∈ dc.NameserverRefs, n ≤ a)

/-- Two heaps agree on every address below `n`. -/
def agreeBelow (n : Nat) (hOld hNew : Heap) : Prop :=
  ∀ a, a < n → hNew[a]? = hOld[a]?

/-- Two heaps agree on every address at or above `n`. -/
def agreeFrom (n : Nat) (hOld hNew : Heap) : Prop :=
  ∀ a, n ≤ a → hNew[a]? = hOld[a]?

/-- Whether a wire RR is one of the seven concrete types the decoder
implements (A, AAAA, CNAME, MX, NS, SOA, TXT). -/
def implementedRR : RR → Bool
  | .other _ => false
  | _ => true

/-! ### Concrete example values used by the witnesses -/

/-- A small concrete heap: provider map, domain metadata, one record with
its metadata map, one nameserver. -/
def exampleHeap : Heap :=
  [Cell.imap [(str "r53", 1)],
   Cell.smap [(str "k", str "v")],
   Cell.smap [(str "m", str "1")],
   Cell.rcell { RType := str "A", Name := str "www", Target := str "1.2.3.4",
                TTL := 300, MetadataRef := 2,
                NameFQDN := str "www.example.com", Priority := 0,
                Original := .nilRef },
   Cell.ncell { Name := str "ns1.example.com", Target := [] }]

/-- The domain config rooted in `exampleHeap`. -/
def exampleDomain : DomainConfigH :=
  { Name := str "example.com", Registrar := str "r",
    DNSProvidersRef := 0, MetadataRef := 1,
    RecordRefs := [3], NameserverRefs := [4], KeepUnknown := false }

/-- The heap produced by copying `exampleDomain` in `exampleHeap`. -/
def exampleCopyHeap : Heap :=
  exampleHeap ++
  [Cell.imap [(str "r53", 1)],
   Cell.smap [(str "k", str "v")],
   Cell.smap [(str "m", str "1")],
   Cell.rcell { RType := str "A", Name := str "www", Target := str "1.2.3.4",
                TTL := 300, MetadataRef := 7,
                NameFQDN := str "www.example.com", Priority := 0,
                Original := .nilRef },
   Cell.ncell { Name := str "ns1.example.com", Target := [] }]

/-- A valid A record with TTL 0, used to witness the round trip. -/
def rA0 : RecordConfig :=
  { RType := str "A", Name := str "www", Target := str "1.2.3.4", TTL := 0,
    Metadata := [], NameFQDN := str "www.example.com", Priority := 0 }

/-- The wire RR `rA0` encodes to (TTL substituted on the generic path). -/
def rrA0 : RR :=
  .a { Name := str "www.example.com.", Rrtype := 1, Class := 1, Ttl := 300 }
    (.v4 1 2 3 4)

/-- The record decoded back from `rrA0`. -/
def rcA0 : RecordConfig :=
  { RType := str "A", Name := str "www", Target := str "1.2.3.4", TTL := 300,
    Metadata := [], NameFQDN := str "www.example.com", Priority := 0 }

/-- The copied domain config (all references fresh). -/
def exampleCopyDomain : DomainConfigH :=
  { Name := str "example.com", Registrar := str "r",
    DNSProvidersRef := 5, MetadataRef := 6,
    RecordRefs := [8], NameserverRefs := [9], KeepUnknown := false }

/-! ## Helper lemmas: tokenizing and decimal round-trips -/

theorem splitOnC_ne_nil (sep : Char) (s : Str) : splitOnC sep s ≠ [] := by
  induction s with
  | nil => simp [splitOnC]
  | cons c cs ih =>
    simp only [splitOnC]
    split
    · simp
    · cases h : splitOnC sep cs with
      | nil => simp
      | cons t ts => simp

theorem splitOnC_no_sep {sep : Char} {s : Str} (h : sep ∉ s) :
    splitOnC sep s = [s] := by
  induction s with
  | nil => rfl
  | cons c cs ih =>
    simp only [List.mem_cons, not_or] at h
    simp only [splitOnC]
    rw [if_neg (fun hc => h.1 hc.symm)]
    rw [ih h.2]

theorem splitOnC_append {sep : Char} {xs : Str} (ys : Str) (h : sep ∉ xs) :
    splitOnC sep (xs ++ sep :: ys) = xs :: splitOnC sep ys := by
  induction xs with
  | nil => simp [splitOnC]
  | cons c cs ih =>
    simp only [List.mem_cons, not_or] at h
    simp only [List.cons_append, splitOnC]
    rw [if_neg (fun hc => h.1 hc.symm)]
    simp only [List.append_eq]
    rw [ih h.2]

theorem splitSp_no_space {s : Str} (h : ' ' ∉ s) : splitSp s = [s] :=
  splitOnC_no_sep h

theorem splitSp_append {xs : Str} (ys : Str) (h : ' ' ∉ xs) :
    splitSp (xs ++ ' ' :: ys) = xs :: splitSp ys :=
  splitOnC_append ys h

theorem digitsFuel_eq_digits {b : Nat} (hb : 2 ≤ b) :
    ∀ (fuel n : Nat), n ≤ fuel → digitsFuel b fuel n = Nat.digits b n := by
  intro fuel
  induction fuel with
  | zero =>
    intro n hn
    interval_cases n
    simp [digitsFuel]
  | succ fuel ih =>
    intro n hn
    match n with
    | 0 => simp [digitsFuel]
    | m + 1 =>
      have hdiv : (m + 1) / b ≤ fuel := by
        have h1 : (m + 1) / b < m + 1 := Nat.div_lt_self (by omega) (by omega)
        omega
      rw [show digitsFuel b (fuel + 1) (m + 1)
            = (m + 1) % b :: digitsFuel b fuel ((m + 1) / b) from rfl,
          ih _ hdiv,
          Nat.digits_def' (by omega : 1 < b) (by omega : 0 < m + 1)]

theorem printNat_eq (n : Nat) :
    printNat n = if n = 0 then ['0'] else ((Nat.digits 10 n).reverse.map digitToChar) := by
  unfold printNat
  by_cases h0 : n = 0
  · simp [h0]
  · rw [if_neg h0, if_neg h0, digitsFuel_eq_digits (by norm_num) n n le_rfl]

theorem parseNat_printNat (n : Nat) : parseNat (printNat n) = some n := by
  by_cases h0 : n = 0
  · subst h0; decide
  · have hne : Nat.digits 10 n ≠ [] := Nat.digits_ne_nil_iff_ne_zero.mpr h0
    have hlt : ∀ d ∈ Nat.digits 10 n, d < 10 := fun d hd =>
      Nat.digits_lt_base (by norm_num) hd
    have hchar : ∀ d, d < 10 → charToDigit (digitToChar d) = some d := by decide
    have hmap : (printNat n).map (fun c => (charToDigit c).getD 0)
        = (Nat.digits 10 n).reverse := by
      rw [printNat_eq, if_neg h0, List.map_map]
      have hfix : ∀ d ∈ (Nat.digits 10 n).reverse,
          ((fun c => (charToDigit c).getD 0) ∘ digitToChar) d = id d := by
        intro d hd
        have hd10 : d < 10 := hlt d (List.mem_reverse.mp hd)
        simp [Function.comp, hchar d hd10]
      rw [List.map_congr_left hfix, List.map_id]
    have hall : (printNat n).all (fun c => (charToDigit c).isSome) = true := by
      rw [printNat_eq, if_neg h0, List.all_eq_true]
      intro c hc
      obtain ⟨d, hd, rfl⟩ := List.mem_map.mp hc
      have hd10 : d < 10 := hlt d (List.mem_reverse.mp hd)
      simp [hchar d hd10]
    have hnil : printNat n ≠ [] := by
      rw [printNat_eq, if_neg h0]
      simpa using hne
    unfold parseNat
    rw [if_pos ⟨hnil, hall⟩, hmap, List.reverse_reverse, Nat.ofDigits_digits]

/-- The decimal rendering of a number contains no space. -/
theorem space_not_mem_printNat (n : Nat) : ' ' ∉ printNat n := by
  by_cases h0 : n = 0
  · subst h0; decide
  · have hlt : ∀ d ∈ Nat.digits 10 n, d < 10 := fun d hd =>
      Nat.digits_lt_base (by norm_num) hd
    rw [printNat_eq, if_neg h0]
    intro hmem
    obtain ⟨d, hd, hdc⟩ := List.mem_map.mp hmem
    have hd10 : d < 10 := hlt d (List.mem_reverse.mp hd)
    revert hdc
    interval_cases d <;> decide

/-! ## Helper lemmas: heap agreement and the copy functions -/

theorem agreeBelow_append {n : Nat} (h ext : Heap) (hn : n ≤ h.length) :
    agreeBelow n h (h ++ ext) := fun a ha =>
  List.getElem?_append_left (lt_of_lt_of_le ha hn)

theorem agreeBelow_set {n : Nat} (h : Heap) {a : Nat} (c : Cell) (hn : n ≤ a) :
    agreeBelow n h (h.set a c) := fun b hb =>
  List.getElem?_set_ne (by omega)

theorem agreeFrom_set {n : Nat} (h : Heap) {a : Nat} (c : Cell) (ha : a < n) :
    agreeFrom n h (h.set a c) := fun b hb =>
  List.getElem?_set_ne (by omega)

theorem agreeBelow_trans {n : Nat} {h1 h2 h3 : Heap}
    (a12 : agreeBelow n h1 h2) (a23 : agreeBelow n h2 h3) :
    agreeBelow n h1 h3 := fun a ha => (a23 a ha).trans (a12 a ha)

theorem readSmap_agree {n : Nat} {hOld hNew : Heap} (hag : agreeBelow n hOld hNew)
    {a : Nat} (ha : a < n) : readSmap hNew a = readSmap hOld a := by
  unfold readSmap
  rw [hag a ha]

theorem readImap_agree {n : Nat} {hOld hNew : Heap} (hag : agreeBelow n hOld hNew)
    {a : Nat} (ha : a < n) : readImap hNew a = readImap hOld a := by
  unfold readImap
  rw [hag a ha]

theorem readRec_agree {n : Nat} {hOld hNew : Heap} (hag : agreeBelow n hOld hNew)
    {a : Nat} (ha : a < n) : readRec hNew a = readRec hOld a := by
  unfold readRec
  rw [hag a ha]

theorem readNs_agree {n : Nat} {hOld hNew : Heap} (hag : agreeBelow n hOld hNew)
    {a : Nat} (ha : a < n) : readNs hNew a = readNs hOld a := by
  unfold readNs
  rw [hag a ha]

theorem recBounded_agree {n : Nat} {hOld hNew : Heap}
    (hag : agreeBelow n hOld hNew) {a : Nat} (hb : recBounded hOld a n) :
    recBounded hNew a n := by
  refine ⟨hb.1, ?_⟩
  rw [readRec_agree hag hb.1]
  exact hb.2

theorem viewRec_agree {n : Nat} {hOld hNew : Heap}
    (hag : agreeBelow n hOld hNew) {a : Nat} (hb : recBounded hOld a n) :
    viewRec hNew a = viewRec hOld a := by
  have e1 : readRec hNew a = readRec hOld a := readRec_agree hag hb.1
  have e2 : readSmap hNew (readRec hOld a).MetadataRef
      = readSmap hOld (readRec hOld a).MetadataRef := readSmap_agree hag hb.2
  simp only [viewRec, e1, e2]

theorem dcBounded_agree {n : Nat} {hOld hNew : Heap}
    (hag : agreeBelow n hOld hNew) {dc : DomainConfigH}
    (hb : dcBounded hOld dc n) : dcBounded hNew dc n :=
  ⟨hb.1, hb.2.1, fun a ha => recBounded_agree hag (hb.2.2.1 a ha), hb.2.2.2⟩

theorem viewDC_agree {n : Nat} {hOld hNew : Heap}
    (hag : agreeBelow n hOld hNew) {dc : DomainConfigH}
    (hb : dcBounded hOld dc n) : viewDC hNew dc = viewDC hOld dc := by
  simp only [viewDC, DomainView.mk.injEq]
  refine ⟨trivial, trivial, readImap_agree hag hb.1, readSmap_agree hag hb.2.1, ?_, ?_, trivial⟩
  · exact List.map_congr_left fun a ha => viewRec_agree hag (hb.2.2.1 a ha)
  · exact List.map_congr_left fun a ha => readNs_agree hag (hb.2.2.2 a ha)

theorem readRec_agreeFrom {n : Nat} {hOld hNew : Heap}
    (hag : agreeFrom n hOld hNew) {a : Nat} (ha : n ≤ a) :
    readRec hNew a = readRec hOld a := by
  unfold readRec
  rw [hag a ha]

theorem recLower_agreeFrom {n : Nat} {hOld hNew : Heap}
    (hag : agreeFrom n hOld hNew) {a : Nat} (hb : recLower hOld a n) :
    recLower hNew a n := by
  refine ⟨hb.1, ?_⟩
  rw [readRec_agreeFrom hag hb.1]
  exact hb.2

theorem viewRec_agreeFrom {n : Nat} {hOld hNew : Heap}
    (hag : agreeFrom n hOld hNew) {a : Nat} (hb : recLower hOld a n) :
    viewRec hNew a = viewRec hOld a := by
  have e1 : readRec hNew a = readRec hOld a := readRec_agreeFrom hag hb.1
  have e2 : readSmap hNew (readRec hOld a).MetadataRef
      = readSmap hOld (readRec hOld a).MetadataRef := by
    unfold readSmap
    rw [hag _ hb.2]
  simp only [viewRec, e1, e2]

theorem viewDC_agreeFrom {n : Nat} {hOld hNew : Heap}
    (hag : agreeFrom n hOld hNew) {dc : DomainConfigH}
    (hb : dcLower hOld dc n) : viewDC hNew dc = viewDC hOld dc := by
  simp only [viewDC, DomainView.mk.injEq]
  refine ⟨trivial, trivial, ?_, ?_, ?_, ?_, trivial⟩
  · unfold readImap
    rw [hag _ hb.1]
  · unfold readSmap
    rw [hag _ hb.2.1]
  · exact List.map_congr_left fun a ha => viewRec_agreeFrom hag (hb.2.2.1 a ha)
  · refine List.map_congr_left fun a ha => ?_
    unfold readNs
    rw [hag _ (hb.2.2.2 a ha)]

theorem recBounded_mono {h : Heap} {a n m : Nat} (hnm : n ≤ m)
    (hb : recBounded h a n) : recBounded h a m :=
  ⟨lt_of_lt_of_le hb.1 hnm, lt_of_lt_of_le hb.2 hnm⟩

theorem recLower_mono {h : Heap} {a n m : Nat} (hmn : m ≤ n)
    (hb : recLower h a n) : recLower h a m :=
  ⟨le_trans hmn hb.1, le_trans hmn hb.2⟩

theorem read_at_append (h : Heap) (c : Cell) (l : Heap) :
    (h ++ c :: l)[h.length]? = some c := by
  rw [List.getElem?_append_right le_rfl]
  simp

theorem read_at_append_succ (h : Heap) (c1 c2 : Cell) (l : Heap) :
    (h ++ c1 :: c2 :: l)[h.length + 1]? = some c2 := by
  rw [List.getElem?_append_right (by omega)]
  have : h.length + 1 - h.length = 1 := by omega
  rw [this]
  simp

theorem agreeBelow_mono {n m : Nat} {h1 h2 : Heap} (hnm : n ≤ m)
    (hag : agreeBelow m h1 h2) : agreeBelow n h1 h2 :=
  fun a ha => hag a (lt_of_lt_of_le ha hnm)

theorem copyCell_MetadataRef (r : RecCell) (n : Nat) :
    (copyCell r n).MetadataRef = n := rfl

theorem copyCell_RType (r : RecCell) (n : Nat) : (copyCell r n).RType = r.RType := rfl

theorem copyCell_Name (r : RecCell) (n : Nat) : (copyCell r n).Name = r.Name := rfl

theorem copyCell_Target (r : RecCell) (n : Nat) : (copyCell r n).Target = r.Target := rfl

theorem copyCell_TTL (r : RecCell) (n : Nat) : (copyCell r n).TTL = r.TTL := rfl

theorem copyCell_NameFQDN (r : RecCell) (n : Nat) :
    (copyCell r n).NameFQDN = r.NameFQDN := rfl

theorem copyCell_Priority (r : RecCell) (n : Nat) :
    (copyCell r n).Priority = r.Priority := rfl

theorem copyCell_Original (r : RecCell) (n : Nat) :
    (copyCell r n).Original = r.Original := rfl

theorem copyNameservers_spec (as : List Nat) : ∀ (h : Heap),
    (∀ a ∈ as, a < h.length) →
    (∃ ext, (copyNameservers h as).1 = h ++ ext) ∧
    ((copyNameservers h as).2.map (readNs (copyNameservers h as).1)
       = as.map (readNs h)) ∧
    (∀ b ∈ (copyNameservers h as).2,
       h.length ≤ b ∧ b < (copyNameservers h as).1.length) := by
  induction as with
  | nil =>
    intro h _
    refine ⟨⟨[], by simp [copyNameservers]⟩, by simp [copyNameservers], ?_⟩
    simp [copyNameservers]
  | cons a rest ih =>
    intro h hb
    have hax : a < h.length := hb a (List.mem_cons_self a rest)
    have hinlen : (h ++ [Cell.ncell (readNs h a)]).length = h.length + 1 := by simp
    have hagin : agreeBelow h.length h (h ++ [Cell.ncell (readNs h a)]) :=
      agreeBelow_append h _ le_rfl
    obtain ⟨⟨ext, hext⟩, hview, hbnds⟩ :=
      ih (h ++ [Cell.ncell (readNs h a)])
        (fun x hx => by
          have := hb x (List.mem_cons_of_mem a hx)
          omega)
    have hagp : agreeBelow (h ++ [Cell.ncell (readNs h a)]).length
        (h ++ [Cell.ncell (readNs h a)])
        (copyNameservers (h ++ [Cell.ncell (readNs h a)]) rest).1 := by
      rw [hext]
      exact agreeBelow_append _ _ le_rfl
    have hplen : (h ++ [Cell.ncell (readNs h a)]).length ≤
        (copyNameservers (h ++ [Cell.ncell (readNs h a)]) rest).1.length := by
      rw [hext]
      simp
    simp only [copyNameservers]
    refine ⟨⟨[Cell.ncell (readNs h a)] ++ ext, by rw [← List.append_assoc]; exact hext⟩,
           ?_, ?_⟩
    · simp only [List.map_cons]
      have hhead : readNs (copyNameservers (h ++ [Cell.ncell (readNs h a)]) rest).1
          h.length = readNs h a := by
        rw [readNs_agree hagp (by omega)]
        unfold readNs
        rw [read_at_append]
      have htail : (copyNameservers (h ++ [Cell.ncell (readNs h a)]) rest).2.map
          (readNs (copyNameservers (h ++ [Cell.ncell (readNs h a)]) rest).1)
          = rest.map (readNs h) := by
        rw [hview]
        exact List.map_congr_left fun x hx =>
          readNs_agree hagin (hb x (List.mem_cons_of_mem a hx))
      rw [hhead, htail]
    · intro b hbmem
      rcases List.mem_cons.mp hbmem with hbeq | hbtl
      · subst hbeq
        exact ⟨le_rfl, by omega⟩
      · have := hbnds b hbtl
        omega

theorem copyRecords_spec (as : List Nat) : ∀ (h : Heap),
    (∀ a ∈ as, recBounded h a h.length) →
    (∃ ext, (copyRecords h as).1 = h ++ ext) ∧
    ((copyRecords h as).2.map (viewRec (copyRecords h as).1)
       = as.map (viewRec h)) ∧
    (∀ b ∈ (copyRecords h as).2,
       recLower (copyRecords h as).1 b h.length ∧
       recBounded (copyRecords h as).1 b (copyRecords h as).1.length) := by
  induction as with
  | nil =>
    intro h _
    refine ⟨⟨[], by simp [copyRecords]⟩, by simp [copyRecords], ?_⟩
    simp [copyRecords]
  | cons a rest ih =>
    intro h hb
    have hax : recBounded h a h.length := hb a (List.mem_cons_self a rest)
    -- the two fresh cells appended for the head record
    have hinlen : (h ++ [Cell.smap (readSmap h (readRec h a).MetadataRef),
        Cell.rcell (copyCell (readRec h a) h.length)]).length
        = h.length + 2 := by simp
    have hagin : agreeBelow h.length h
        (h ++ [Cell.smap (readSmap h (readRec h a).MetadataRef),
               Cell.rcell (copyCell (readRec h a) h.length)]) :=
      agreeBelow_append h _ le_rfl
    obtain ⟨⟨ext, hext⟩, hview, hbnds⟩ :=
      ih (h ++ [Cell.smap (readSmap h (readRec h a).MetadataRef),
                Cell.rcell (copyCell (readRec h a) h.length)])
        (fun x hx => by
          have hbx := hb x (List.mem_cons_of_mem a hx)
          have := recBounded_agree hagin hbx
          exact recBounded_mono (by omega) this)
    have hagp : agreeBelow (h.length + 2)
        (h ++ [Cell.smap (readSmap h (readRec h a).MetadataRef),
               Cell.rcell (copyCell (readRec h a) h.length)])
        (copyRecords (h ++ [Cell.smap (readSmap h (readRec h a).MetadataRef),
               Cell.rcell (copyCell (readRec h a) h.length)]) rest).1 := by
      rw [hext]
      exact agreeBelow_append _ _ (by omega)
    have hplen : h.length + 2 ≤
        (copyRecords (h ++ [Cell.smap (readSmap h (readRec h a).MetadataRef),
               Cell.rcell (copyCell (readRec h a) h.length)]) rest).1.length := by
      rw [hext]
      simp
    -- the copied head cell, as read back from the final heap
    have hreadcell : readRec (copyRecords (h ++ [Cell.smap (readSmap h (readRec h a).MetadataRef),
          Cell.rcell (copyCell (readRec h a) h.length)]) rest).1 (h.length + 1)
        = copyCell (readRec h a) h.length := by
      rw [readRec_agree hagp (by omega)]
      unfold readRec
      rw [read_at_append_succ]
    have hreadmeta : readSmap (copyRecords (h ++ [Cell.smap (readSmap h (readRec h a).MetadataRef),
          Cell.rcell (copyCell (readRec h a) h.length)]) rest).1 h.length
        = readSmap h (readRec h a).MetadataRef := by
      rw [readSmap_agree hagp (by omega)]
      unfold readSmap
      rw [read_at_append]
    simp only [copyRecords]
    refine ⟨⟨[Cell.smap (readSmap h (readRec h a).MetadataRef),
              Cell.rcell (copyCell (readRec h a) h.length)] ++ ext,
            by rw [← List.append_assoc]; exact hext⟩, ?_, ?_⟩
    · simp only [List.map_cons]
      have hhead : viewRec (copyRecords (h ++ [Cell.smap (readSmap h (readRec h a).MetadataRef),
          Cell.rcell (copyCell (readRec h a) h.length)]) rest).1 (h.length + 1)
          = viewRec h a := by
        unfold viewRec
        rw [hreadcell]
        simp only [copyCell_MetadataRef, copyCell_RType, copyCell_Name, copyCell_Target,
          copyCell_TTL, copyCell_NameFQDN, copyCell_Priority, copyCell_Original]
        rw [hreadmeta]
      have htail : (copyRecords (h ++ [Cell.smap (readSmap h (readRec h a).MetadataRef),
          Cell.rcell (copyCell (readRec h a) h.length)]) rest).2.map
          (viewRec (copyRecords (h ++ [Cell.smap (readSmap h (readRec h a).MetadataRef),
          Cell.rcell (copyCell (readRec h a) h.length)]) rest).1)
          = rest.map (viewRec h) := by
        rw [hview]
        exact List.map_congr_left fun x hx =>
          viewRec_agree hagin (hb x (List.mem_cons_of_mem a hx))
      rw [hhead, htail]
    · intro b hbmem
      rcases List.mem_cons.mp hbmem with hbeq | hbtl
      · subst hbeq
        refine ⟨⟨by omega, ?_⟩, ⟨by omega, ?_⟩⟩
        · rw [hreadcell, copyCell_MetadataRef]
        · rw [hreadcell, copyCell_MetadataRef]
          omega
      · obtain ⟨hlo, hhi⟩ := hbnds b hbtl
        exact ⟨recLower_mono (by omega) hlo, hhi⟩

/-- The three structural facts about a successful `Copy`: the new heap
extends the old one, the copy reads back deep-equal to the source, and
every reference reachable from the copy is fresh (at or above the old
heap's length). -/
theorem Copy_ok_facts (h : Heap) (dc : DomainConfigH) (hb : dcBounded h dc h.length)
    (h' : Heap) (dc' : DomainConfigH)
    (heq : DomainConfig.Copy h dc = .ok (h', dc')) :
    (∃ ext, h' = h ++ ext) ∧
    viewDC h' dc' = viewDC h dc ∧
    dcLower h' dc' h.length := by
  by_cases hge : gobCanEncode h dc = true
  · unfold DomainConfig.Copy at heq
    rw [if_neg (not_not_intro hge)] at heq
    simp only [Except.ok.injEq, Prod.mk.injEq] at heq
    obtain ⟨hh, hdc⟩ := heq
    -- the intermediate heap with the two fresh map cells
    have hag1 : agreeBelow h.length h
        (h ++ [Cell.imap (readImap h dc.DNSProvidersRef),
               Cell.smap (readSmap h dc.MetadataRef)]) :=
      agreeBelow_append h _ le_rfl
    have h1len : (h ++ [Cell.imap (readImap h dc.DNSProvidersRef),
        Cell.smap (readSmap h dc.MetadataRef)]).length = h.length + 2 := by simp
    have hbrec : ∀ x ∈ dc.RecordRefs,
        recBounded (h ++ [Cell.imap (readImap h dc.DNSProvidersRef),
          Cell.smap (readSmap h dc.MetadataRef)]) x
        (h ++ [Cell.imap (readImap h dc.DNSProvidersRef),
          Cell.smap (readSmap h dc.MetadataRef)]).length := fun x hx =>
      recBounded_mono (by omega)
        (recBounded_agree hag1 (hb.2.2.1 x hx))
    obtain ⟨⟨ext2, hext2⟩, hview2, hbnds2⟩ :=
      copyRecords_spec dc.RecordRefs
        (h ++ [Cell.imap (readImap h dc.DNSProvidersRef),
               Cell.smap (readSmap h dc.MetadataRef)]) hbrec
    have hp1len : h.length + 2 ≤
        (copyRecords (h ++ [Cell.imap (readImap h dc.DNSProvidersRef),
          Cell.smap (readSmap h dc.MetadataRef)]) dc.RecordRefs).1.length := by
      rw [hext2]
      simp
    -- agreement from the two-cell heap to the post-records heap
    have hag12 : agreeBelow (h.length + 2)
        (h ++ [Cell.imap (readImap h dc.DNSProvidersRef),
               Cell.smap (readSmap h dc.MetadataRef)])
        (copyRecords (h ++ [Cell.imap (readImap h dc.DNSProvidersRef),
          Cell.smap (readSmap h dc.MetadataRef)]) dc.RecordRefs).1 := by
      rw [hext2]
      exact agreeBelow_append _ _ (by omega)
    have hag1p : agreeBelow h.length h
        (copyRecords (h ++ [Cell.imap (readImap h dc.DNSProvidersRef),
          Cell.smap (readSmap h dc.MetadataRef)]) dc.RecordRefs).1 :=
      agreeBelow_trans hag1 (agreeBelow_mono (by omega) hag12)
    have hbns : ∀ x ∈ dc.NameserverRefs,
        x < (copyRecords (h ++ [Cell.imap (readImap h dc.DNSProvidersRef),
          Cell.smap (readSmap h dc.MetadataRef)]) dc.RecordRefs).1.length := fun x hx => by
      have := hb.2.2.2 x hx
      omega
    obtain ⟨⟨ext3, hext3⟩, hview3, hbnds3⟩ :=
      copyNameservers_spec dc.NameserverRefs
        (copyRecords (h ++ [Cell.imap (readImap h dc.DNSProvidersRef),
          Cell.smap (readSmap h dc.MetadataRef)]) dc.RecordRefs).1 hbns
    -- agreement from the post-records heap to the final heap
    have hagpq : agreeBelow
        (copyRecords (h ++ [Cell.imap (readImap h dc.DNSProvidersRef),
          Cell.smap (readSmap h dc.MetadataRef)]) dc.RecordRefs).1.length
        (copyRecords (h ++ [Cell.imap (readImap h dc.DNSProvidersRef),
          Cell.smap (readSmap h dc.MetadataRef)]) dc.RecordRefs).1
        (copyNameservers (copyRecords (h ++ [Cell.imap (readImap h dc.DNSProvidersRef),
          Cell.smap (readSmap h dc.MetadataRef)]) dc.RecordRefs).1 dc.NameserverRefs).1 := by
      rw [hext3]
      exact agreeBelow_append _ _ le_rfl
    have hag1q : agreeBelow (h.length + 2)
        (h ++ [Cell.imap (readImap h dc.DNSProvidersRef),
               Cell.smap (readSmap h dc.MetadataRef)])
        (copyNameservers (copyRecords (h ++ [Cell.imap (readImap h dc.DNSProvidersRef),
          Cell.smap (readSmap h dc.MetadataRef)]) dc.RecordRefs).1 dc.NameserverRefs).1 :=
      agreeBelow_trans hag12 (agreeBelow_mono (by omega) hagpq)
    subst hh
    subst hdc
    refine ⟨?_, ?_, ?_⟩
    · -- the final heap extends the original one
      refine ⟨[Cell.imap (readImap h dc.DNSProvidersRef),
               Cell.smap (readSmap h dc.MetadataRef)] ++ ext2 ++ ext3, ?_⟩
      rw [hext3, hext2]
      simp [List.append_assoc]
    · -- deep equality of the copy with the source
      simp only [viewDC, DomainView.mk.injEq]
      refine ⟨trivial, trivial, ?_, ?_, ?_, ?_, trivial⟩
      · have e1 : readImap (copyNameservers (copyRecords (h ++
            [Cell.imap (readImap h dc.DNSProvidersRef),
             Cell.smap (readSmap h dc.MetadataRef)]) dc.RecordRefs).1
            dc.NameserverRefs).1 h.length
            = readImap (h ++ [Cell.imap (readImap h dc.DNSProvidersRef),
                Cell.smap (readSmap h dc.MetadataRef)]) h.length :=
          readImap_agree hag1q (by omega)
        rw [e1]
        unfold readImap
        rw [read_at_append]
      · have e1 : readSmap (copyNameservers (copyRecords (h ++
            [Cell.imap (readImap h dc.DNSProvidersRef),
             Cell.smap (readSmap h dc.MetadataRef)]) dc.RecordRefs).1
            dc.NameserverRefs).1 (h.length + 1)
            = readSmap (h ++ [Cell.imap (readImap h dc.DNSProvidersRef),
                Cell.smap (readSmap h dc.MetadataRef)]) (h.length + 1) :=
          readSmap_agree hag1q (by omega)
        rw [e1]
        unfold readSmap
        rw [read_at_append_succ]
      · have e1 : (copyRecords (h ++ [Cell.imap (readImap h dc.DNSProvidersRef),
            Cell.smap (readSmap h dc.MetadataRef)]) dc.RecordRefs).2.map
            (viewRec (copyNameservers (copyRecords (h ++
              [Cell.imap (readImap h dc.DNSProvidersRef),
               Cell.smap (readSmap h dc.MetadataRef)]) dc.RecordRefs).1
              dc.NameserverRefs).1)
            = (copyRecords (h ++ [Cell.imap (readImap h dc.DNSProvidersRef),
                Cell.smap (readSmap h dc.MetadataRef)]) dc.RecordRefs).2.map
              (viewRec (copyRecords (h ++ [Cell.imap (readImap h dc.DNSProvidersRef),
                Cell.smap (readSmap h dc.MetadataRef)]) dc.RecordRefs).1) :=
          List.map_congr_left fun b hbm =>
            viewRec_agree hagpq (hbnds2 b hbm).2
        rw [e1, hview2]
        exact List.map_congr_left fun x hx => viewRec_agree hag1 (hb.2.2.1 x hx)
      · rw [hview3]
        exact List.map_congr_left fun x hx => readNs_agree hag1p (hb.2.2.2 x hx)
    · -- every reference of the copy is fresh
      refine ⟨by simp, by simp, ?_, ?_⟩
      · intro b hbm
        obtain ⟨hlo, hhi⟩ := hbnds2 b hbm
        have e1 : readRec (copyNameservers (copyRecords (h ++
            [Cell.imap (readImap h dc.DNSProvidersRef),
             Cell.smap (readSmap h dc.MetadataRef)]) dc.RecordRefs).1
            dc.NameserverRefs).1 b
            = readRec (copyRecords (h ++ [Cell.imap (readImap h dc.DNSProvidersRef),
                Cell.smap (readSmap h dc.MetadataRef)]) dc.RecordRefs).1 b :=
          readRec_agree hagpq hhi.1
        refine ⟨?_, ?_⟩
        · have := hlo.1
          omega
        · rw [e1]
          have := hlo.2
          omega
      · intro b hbm
        have := (hbnds3 b hbm).1
        omega
  · unfold DomainConfig.Copy at heq
    rw [if_pos (by simpa using hge)] at heq
    exact absurd heq (by simp)


/-! ## Helper lemmas: the encode path -/

theorem splitSp_synth (n t ty tg : Str) (hn : ' ' ∉ n) (ht : ' ' ∉ t)
    (hty : ' ' ∉ ty) :
    splitSp (n ++ ' ' :: t ++ ' ' :: str "IN" ++ ' ' :: ty ++ ' ' :: tg)
      = n :: t :: str "IN" :: ty :: splitSp tg := by
  simp only [List.cons_append, List.append_assoc]
  rw [splitSp_append _ hn, splitSp_append _ ht, splitSp_append _ (by decide),
      splitSp_append _ hty]

theorem stringToType_cases {s : Str} {n : Nat} (h : StringToType s = some n) :
    (s = str "A" ∧ n = 1) ∨ (s = str "NS" ∧ n = 2) ∨ (s = str "CNAME" ∧ n = 5) ∨
    (s = str "SOA" ∧ n = 6) ∨ (s = str "MX" ∧ n = 15) ∨ (s = str "TXT" ∧ n = 16) ∨
    (s = str "AAAA" ∧ n = 28) := by
  unfold StringToType at h
  split_ifs at h <;> simp_all

theorem stringToType_no_space {s : Str} {n : Nat} (h : StringToType s = some n) :
    ' ' ∉ s := by
  rcases stringToType_cases h with ⟨h1, _⟩ | ⟨h1, _⟩ | ⟨h1, _⟩ | ⟨h1, _⟩ |
    ⟨h1, _⟩ | ⟨h1, _⟩ | ⟨h1, _⟩ <;> subst h1 <;> decide

theorem typeToString_stringToType {s : Str} {n : Nat} (h : StringToType s = some n) :
    TypeToString n = s := by
  rcases stringToType_cases h with ⟨h1, h2⟩ | ⟨h1, h2⟩ | ⟨h1, h2⟩ | ⟨h1, h2⟩ |
    ⟨h1, h2⟩ | ⟨h1, h2⟩ | ⟨h1, h2⟩ <;> subst h1 <;> subst h2 <;> decide

/-- `NewRR` on a synthesized `name ttl IN TYPE target` line: resolve the
type and hand the header and target tokens to the per-type construction. -/
theorem NewRR_synth_eval (nam tyS tg : Str) (ttlN : Nat)
    (hn : ' ' ∉ nam) (hty : ' ' ∉ tyS) :
    NewRR (nam ++ ' ' :: printNat ttlN ++ ' ' :: str "IN" ++ ' ' :: tyS ++ ' ' :: tg)
      = (match StringToType tyS with
         | some rdtype =>
           rrFromParts { Name := fqdn nam, Rrtype := rdtype,
                         Class := ClassINET, Ttl := ttlN } rdtype (splitSp tg)
         | none => none) := by
  unfold NewRR
  rw [splitSp_synth nam (printNat ttlN) tyS tg hn (space_not_mem_printNat ttlN) hty]
  simp only [newRRFromTokens]
  rw [if_neg (by simp), parseNat_printNat]
  cases hst : StringToType tyS <;> rfl

/-- Every RR the per-type construction produces carries the given header. -/
theorem rrFromParts_header (hdr : RRHeader) (rdtype : Nat) (rest : List Str)
    (rr : RR) (hok : rrFromParts hdr rdtype rest = some rr) : rr.Header = hdr := by
  unfold rrFromParts at hok
  repeat' split at hok
  all_goals cases hok <;> rfl

theorem rrFromParts_A (hdr : RRHeader) (t : Str) (ip : IP)
    (hip : parseIPv4 t = some ip) :
    rrFromParts hdr 1 [t] = some (.a hdr ip) := by
  simp [rrFromParts, hip]

theorem rrFromParts_AAAA (hdr : RRHeader) (t : Str) (ip : IP)
    (hip : parseIPv6 t = some ip) :
    rrFromParts hdr 28 [t] = some (.aaaa hdr ip) := by
  simp [rrFromParts, hip]

theorem rrFromParts_CNAME (hdr : RRHeader) (t : Str) (hne : t ≠ []) :
    rrFromParts hdr 5 [t] = some (.cname hdr (fqdn t)) := by
  simp [rrFromParts, hne]

theorem rrFromParts_NS (hdr : RRHeader) (t : Str) (hne : t ≠ []) :
    rrFromParts hdr 2 [t] = some (.ns hdr (fqdn t)) := by
  simp [rrFromParts, hne]

/-- Encode on an MX record: the header carries the record TTL verbatim. -/
theorem RR_MX_eval (r : RecordConfig) (hty : r.RType = str "MX") :
    RecordConfig.RR r
      = .ok (.mx { Name := r.NameFQDN ++ ['.'], Rrtype := 15, Class := ClassINET,
                   Ttl := r.TTL } r.Priority r.Target) := by
  unfold RecordConfig.RR
  rw [hty]
  rfl

/-- Encode on a TXT record: the header carries the record TTL verbatim. -/
theorem RR_TXT_eval (r : RecordConfig) (hty : r.RType = str "TXT") :
    RecordConfig.RR r
      = .ok (.txt { Name := r.NameFQDN ++ ['.'], Rrtype := 16, Class := ClassINET,
                    Ttl := r.TTL } [r.Target]) := by
  unfold RecordConfig.RR
  rw [hty]
  rfl

/-- Encode on the generic path: synthesize the zone line (with the
default-TTL substitution) and parse it back. -/
theorem RR_generic_eval (r : RecordConfig) (rdtype : Nat)
    (hty : StringToType r.RType = some rdtype)
    (h15 : rdtype ≠ 15) (h16 : rdtype ≠ 16) (hsp : ' ' ∉ r.NameFQDN) :
    RecordConfig.RR r
      = (match rrFromParts { Name := fqdn r.NameFQDN, Rrtype := rdtype, Class := ClassINET, Ttl := if r.TTL = 0 then DefaultTTL else r.TTL } rdtype (splitSp r.Target) with
         | some rr => EncodeResult.ok rr
         | none => .fatal (str "NewRR rejected RecordConfig: " ++ synthLine r)) := by
  have hsynth : synthLine r
      = r.NameFQDN ++ ' ' :: printNat (if r.TTL = 0 then DefaultTTL else r.TTL)
        ++ ' ' :: str "IN" ++ ' ' :: r.RType ++ ' ' :: r.Target := by
    unfold synthLine
    by_cases h0 : r.TTL = 0 <;> simp [h0]
  have hnew : NewRR (synthLine r)
      = rrFromParts { Name := fqdn r.NameFQDN, Rrtype := rdtype, Class := ClassINET, Ttl := if r.TTL = 0 then DefaultTTL else r.TTL } rdtype (splitSp r.Target) := by
    rw [hsynth, NewRR_synth_eval r.NameFQDN r.RType r.Target _ hsp
          (stringToType_no_space hty), hty]
  unfold RecordConfig.RR
  rw [hty]
  simp only []
  rw [if_neg h15, if_neg h16, hnew]

/-! ## Helper lemmas: name handling on the round trip -/

theorem fqdn_no_dot {s : Str} (h : s.getLast? ≠ some '.') :
    fqdn s = s ++ ['.'] := by
  unfold fqdn
  rw [if_neg (fun hc => h hc.2)]

theorem fqdn_dot {s : Str} (hne : s ≠ []) (h : s.getLast? = some '.') :
    fqdn s = s := by
  unfold fqdn
  rw [if_pos ⟨hne, h⟩]

theorem trimSuffix_dot (xs : Str) : trimSuffix (xs ++ ['.']) (str ".") = xs := by
  unfold trimSuffix
  have hlen : (xs ++ ['.']).length - (str ".").length = xs.length := by simp [str]
  rw [if_pos]
  · rw [hlen, List.take_left]
  · refine ⟨by simp [str], ?_⟩
    rw [hlen]
    rw [show ((xs ++ ['.']).drop xs.length) = ['.'] from List.drop_left xs ['.']]
    rfl

theorem trimDomainName_apex (origin : Str)
    (hond : origin.getLast? ≠ some '.') :
    TrimDomainName (origin ++ ['.']) origin = str "@" := by
  unfold TrimDomainName
  rw [if_neg (by simp)]
  have hfq1 : fqdn (origin ++ ['.']) = origin ++ ['.'] :=
    fqdn_dot (by simp) (List.getLast?_concat origin)
  rw [fqdn_no_dot hond, hfq1]
  simp

theorem trimDomainName_sub (nm origin : Str)
    (hond : origin.getLast? ≠ some '.') :
    TrimDomainName ((nm ++ '.' :: origin) ++ ['.']) origin = nm := by
  unfold TrimDomainName
  rw [if_neg (by simp)]
  have hfq1 : fqdn ((nm ++ '.' :: origin) ++ ['.']) = (nm ++ '.' :: origin) ++ ['.'] :=
    fqdn_dot (by simp) (List.getLast?_concat _)
  rw [fqdn_no_dot hond, hfq1]
  have hshape : (nm ++ '.' :: origin) ++ ['.'] = nm ++ '.' :: (origin ++ ['.']) := by
    simp
  rw [if_neg]
  · rw [hshape]
    have hlen : (nm ++ '.' :: (origin ++ ['.'])).length - ((origin ++ ['.']).length + 1)
        = nm.length := by
      simp
    rw [if_pos]
    · rw [hlen]
      have : nm ++ '.' :: (origin ++ ['.']) = nm ++ ('.' :: (origin ++ ['.'])) := rfl
      rw [this, List.take_left]
    · refine ⟨by simp, ?_⟩
      rw [hlen]
      rw [show ((nm ++ '.' :: (origin ++ ['.'])).drop nm.length)
            = '.' :: (origin ++ ['.']) from List.drop_left nm _]
  · rw [hshape]
    intro heq
    have hlen2 := congrArg List.length heq
    simp only [lower, List.length_map, List.length_append, List.length_cons] at hlen2
    omega

/-- The two decoded name fields, for a record whose `NameFQDN` is
consistent with the origin and stored lowercase. -/
theorem decoded_names (r : RecordConfig) (origin : Str)
    (hlowfq : lower r.NameFQDN = r.NameFQDN)
    (hlown : lower r.Name = r.Name)
    (hond : origin.getLast? ≠ some '.')
    (hfq : r.NameFQDN = (if r.Name = str "@" then origin
                         else r.Name ++ '.' :: origin)) :
    lower (trimSuffix (r.NameFQDN ++ ['.']) (str ".")) = r.NameFQDN ∧
    lower (TrimDomainName (r.NameFQDN ++ ['.']) origin) = r.Name := by
  constructor
  · rw [trimSuffix_dot, hlowfq]
  · by_cases hap : r.Name = str "@"
    · rw [if_pos hap] at hfq
      rw [hfq, trimDomainName_apex origin hond, hap]
      decide
    · rw [if_neg hap] at hfq
      rw [hfq, trimDomainName_sub r.Name origin hond, hlown]

/-! ## Claim theorems -/

theorem grouped_foldl (rs : Records) : ∀ (m : RecordKey → Records) (k : RecordKey),
    rs.foldl (fun m r => fun k' =>
        if k' = { RType := r.RType, Name := r.Name } then m k' ++ [r] else m k') m k
      = m k ++ rs.filter (fun r => decide (k = { RType := r.RType, Name := r.Name })) := by
  induction rs with
  | nil => intro m k; simp
  | cons r rest ih =>
    intro m k
    simp only [List.foldl_cons, List.filter_cons]
    rw [ih]
    by_cases hk : k = { RType := r.RType, Name := r.Name }
    · simp [hk]
    · simp [hk]

/-- **C6**: `Records.Grouped` sends each key to exactly the input records
carrying that key, in input order: the group at `k` is the order-preserving
filter of the input.  Nothing is deduplicated, sorted or validated, and the
function is deterministic, so grouping the same input twice yields the same
mapping with the same per-group order. -/
theorem C6_grouped_is_ordered_partition (rs : Records) (k : RecordKey) :
    Records.Grouped rs k
      = rs.filter (fun r => decide (k = { RType := r.RType, Name := r.Name })) ∧
    (∀ r, r ∈ Records.Grouped rs k ↔
      (r ∈ rs ∧ k = { RType := r.RType, Name := r.Name })) := by
  have hfilter : Records.Grouped rs k
      = rs.filter (fun r => decide (k = { RType := r.RType, Name := r.Name })) := by
    unfold Records.Grouped
    rw [grouped_foldl]
    simp
  refine ⟨hfilter, fun r => ?_⟩
  rw [hfilter]
  simp [List.mem_filter]

/-- **C3**: decoding is total and recoverable — for the seven implemented
wire types it returns a `RecordConfig`, and for any other wire type it
returns an unimplemented-record-type error value (an `Except.error`, never
an abort), with no default record substituted. -/
theorem C3_decode_recoverable (rr : RR) (origin : Str) :
    (implementedRR rr = true → (RRToRecord rr origin).isOk = true) ∧
    (implementedRR rr = false →
      RRToRecord rr origin
        = .error (str "unimplemented zone record type="
            ++ TypeToString rr.Header.Rrtype)) := by
  cases rr <;> simp [implementedRR, RRToRecord, RR.Header, Except.isOk, Except.toBool]

theorem C3_witness :
    (RRToRecord (.a { Name := str "www.example.com.", Rrtype := 1, Class := 1, Ttl := 300 }
        (.v4 1 2 3 4)) (str "example.com")).isOk = true ∧
    RRToRecord (.other { Name := str "x.example.com.", Rrtype := 33, Class := 1, Ttl := 300 })
        (str "example.com")
      = .error (str "unimplemented zone record type="
          ++ TypeToString (RR.other { Name := str "x.example.com.", Rrtype := 33, Class := 1, Ttl := 300 }).Header.Rrtype) :=
  ⟨(C3_decode_recoverable _ _).1 rfl, (C3_decode_recoverable _ _).2 rfl⟩

/-- **C7**: whenever decoding succeeds, the record's header-derived fields
are exactly: `RType` the string name of the type code, `NameFQDN` the header
name lowercased with the trailing dot stripped, `Name` the header name with
the origin suffix stripped and lowercased, and `TTL` the header TTL
verbatim (no default-TTL substitution on decode). -/
theorem C7_decode_header_extraction (rr : RR) (origin : Str) (rc : RecordConfig)
    (hok : RRToRecord rr origin = .ok rc) :
    rc.RType = TypeToString rr.Header.Rrtype ∧
    rc.NameFQDN = lower (trimSuffix rr.Header.Name (str ".")) ∧
    rc.Name = lower (TrimDomainName rr.Header.Name origin) ∧
    rc.TTL = rr.Header.Ttl := by
  cases rr <;>
    first
      | (injection hok with h; subst h; exact ⟨rfl, rfl, rfl, rfl⟩)
      | injection hok

theorem C7_witness :
    ({ RType := str "MX", Name := str "mail", Target := str "mx1.example.com.", TTL := 0, Metadata := [], NameFQDN := str "mail.example.com", Priority := 10 } : RecordConfig).RType = TypeToString 15 ∧
    ({ RType := str "MX", Name := str "mail", Target := str "mx1.example.com.", TTL := 0, Metadata := [], NameFQDN := str "mail.example.com", Priority := 10 } : RecordConfig).NameFQDN
      = lower (trimSuffix (str "Mail.Example.com.") (str ".")) ∧
    ({ RType := str "MX", Name := str "mail", Target := str "mx1.example.com.", TTL := 0, Metadata := [], NameFQDN := str "mail.example.com", Priority := 10 } : RecordConfig).Name
      = lower (TrimDomainName (str "Mail.Example.com.") (str "example.com")) ∧
    ({ RType := str "MX", Name := str "mail", Target := str "mx1.example.com.", TTL := 0, Metadata := [], NameFQDN := str "mail.example.com", Priority := 10 } : RecordConfig).TTL = 0 :=
  C7_decode_header_extraction
    (.mx { Name := str "Mail.Example.com.", Rrtype := 15, Class := 1, Ttl := 0 }
      10 (str "mx1.example.com.")) (str "example.com") _ rfl

/-- **C8**: decoding a TXT wire record joins all text segments with single
spaces into `Target` (segment boundaries are not preserved). -/
theorem C8_txt_target_join (hdr : RRHeader) (txts : List Str) (origin : Str)
    (rc : RecordConfig) (hok : RRToRecord (.txt hdr txts) origin = .ok rc) :
    rc.Target = joinSp txts := by
  injection hok with h
  subst h
  rfl

theorem C8_witness :
    ({ RType := str "TXT", Name := str "t", Target := str "a b", TTL := 3, Metadata := [], NameFQDN := str "t.example.com", Priority := 0 } : RecordConfig).Target
      = joinSp [str "a", str "b"] ∧
    joinSp [str "a", str "b"] = str "a b" :=
  ⟨C8_txt_target_join { Name := str "t.example.com.", Rrtype := 16, Class := 1, Ttl := 3 }
      [str "a", str "b"] (str "example.com") _ rfl,
   by decide⟩

/-- **C10** is false as stated: a record carrying metadata renders extra
`key=value` segments after the `Type NameFQDN Target TTL` form. -/
theorem C10_counterexample :
    RecordConfig.String (some { RType := str "A", Name := str "www", Target := str "1.2.3.4", TTL := 300, Metadata := [(str "k", str "v")], NameFQDN := str "www.example.com", Priority := 0 })
      = str "A www.example.com 1.2.3.4 300 k=v" ∧
    str "A www.example.com 1.2.3.4 300 k=v" ≠ str "A www.example.com 1.2.3.4 300" := by
  exact ⟨by decide, by decide⟩

/-- **C10** (amended): `String` on a nil receiver is total and returns
`"?"`; on a record it returns the `Type NameFQDN Target TTL` form,
appending the priority field exactly when the type is MX, followed by one
`key=value` segment per metadata entry. -/
theorem C10_string_rendering :
    RecordConfig.String none = str "?" ∧
    (∀ r : RecordConfig, RecordConfig.String (some r)
      = r.Metadata.foldl (fun acc kv => acc ++ ' ' :: kv.1 ++ '=' :: kv.2)
          ((r.RType ++ ' ' :: r.NameFQDN ++ ' ' :: r.Target ++ ' ' :: printNat r.TTL) ++
           (if r.RType = str "MX" then ' ' :: str "priority=" ++ printNat r.Priority
            else []))) := by
  refine ⟨rfl, fun r => ?_⟩
  unfold RecordConfig.String
  by_cases hmx : r.RType = str "MX"
  · simp [hmx]
  · simp [hmx]

/-- **C4**: `InterfaceToIP` maps every 32-bit unsigned integer to the
packed network-byte-order IPv4 address (in particular `3232235521` to
`192.168.0.1`), maps every textual IP literal the parser accepts to the
parsed address (in particular `"2001:db8::1"`), and rejects any other
shape (such as a boolean) with an invalid-address error naming the
received type. -/
theorem C4_interfaceToIP_coercion :
    (∀ n : Nat, n < 4294967296 → InterfaceToIP (.vnum n) = .ok (UintToIP n)) ∧
    UintToIP 3232235521 = IP.v4 192 168 0 1 ∧
    renderIP (UintToIP 3232235521) = str "192.168.0.1" ∧
    (∀ (s : Str) (ip : IP), parseIP s = some ip → InterfaceToIP (.vstr s) = .ok ip) ∧
    parseIP (str "2001:db8::1") = some (IP.v6 [8193, 3512, 0, 0, 0, 0, 0, 1]) ∧
    (∀ b : Bool, InterfaceToIP (.vbool b)
      = .error (str "Cannot convert type " ++ typeName (.vbool b) ++ str " to ip.")) := by
  refine ⟨?_, by decide, by decide, ?_, by decide, fun b => rfl⟩
  · intro n hn
    simp only [InterfaceToIP]
    rw [Nat.mod_eq_of_lt hn]
  · intro s ip hip
    simp only [InterfaceToIP]
    rw [hip]

theorem C4_witness :
    InterfaceToIP (.vnum 3232235521) = .ok (UintToIP 3232235521) ∧
    InterfaceToIP (.vstr (str "2001:db8::1")) = .ok (IP.v6 [8193, 3512, 0, 0, 0, 0, 0, 1]) ∧
    InterfaceToIP (.vbool true) = .error (str "Cannot convert type " ++ typeName (.vbool true) ++ str " to ip.") :=
  ⟨C4_interfaceToIP_coercion.1 3232235521 (by norm_num),
   C4_interfaceToIP_coercion.2.2.2.1 (str "2001:db8::1") _ C4_interfaceToIP_coercion.2.2.2.2.1,
   C4_interfaceToIP_coercion.2.2.2.2.2 true⟩

/-- **C5**: a successful `Copy` yields a domain config deep-equal to the
source by field comparison, sharing no mutable backing store with it:
mutating any heap cell on the copy side (every address at or above the
old heap length, which covers all of the copy's references) leaves the
source's view unchanged, and mutating any cell on the source side leaves
the copy's view unchanged; when gob cannot encode the value, `Copy`
returns the distinct gob error and no object at all (all-or-nothing). -/
theorem C5_copy_deep_equal_independent (h : Heap) (dc : DomainConfigH)
    (hb : dcBounded h dc h.length) :
    (∀ h' dc', DomainConfig.Copy h dc = .ok (h', dc') →
       viewDC h' dc' = viewDC h dc ∧
       viewDC h' dc = viewDC h dc ∧
       (∀ a c, h.length ≤ a → viewDC (h'.set a c) dc = viewDC h' dc) ∧
       (∀ a c, a < h.length → viewDC (h'.set a c) dc' = viewDC h' dc')) ∧
    (gobCanEncode h dc = false →
       DomainConfig.Copy h dc = .error (str "gob: type not registered for interface")) := by
  constructor
  · intro h' dc' heq
    obtain ⟨⟨ext, hext⟩, hdeep, hlow⟩ := Copy_ok_facts h dc hb h' dc' heq
    have hagext : agreeBelow h.length h h' := by
      rw [hext]
      exact agreeBelow_append h ext le_rfl
    have hb' : dcBounded h' dc h.length := dcBounded_agree hagext hb
    refine ⟨hdeep, viewDC_agree hagext hb, ?_, ?_⟩
    · intro a c ha
      exact viewDC_agree (agreeBelow_set h' c ha) hb'
    · intro a c ha
      exact viewDC_agreeFrom (agreeFrom_set h' c ha) hlow
  · intro hge
    unfold DomainConfig.Copy
    rw [if_pos (by simp [hge])]

theorem C5_witness :
    DomainConfig.Copy exampleHeap exampleDomain = .ok (exampleCopyHeap, exampleCopyDomain) ∧
    viewDC exampleCopyHeap exampleCopyDomain = viewDC exampleHeap exampleDomain ∧
    viewDC (exampleCopyHeap.set 7 (Cell.smap [])) exampleDomain = viewDC exampleCopyHeap exampleDomain ∧
    viewDC (exampleCopyHeap.set 2 (Cell.smap [])) exampleCopyDomain = viewDC exampleCopyHeap exampleCopyDomain :=
  ⟨rfl,
   ((C5_copy_deep_equal_independent exampleHeap exampleDomain (by decide)).1
     exampleCopyHeap exampleCopyDomain rfl).1,
   ((C5_copy_deep_equal_independent exampleHeap exampleDomain (by decide)).1
     exampleCopyHeap exampleCopyDomain rfl).2.2.1 7 (Cell.smap []) (by decide),
   ((C5_copy_deep_equal_independent exampleHeap exampleDomain (by decide)).1
     exampleCopyHeap exampleCopyDomain rfl).2.2.2 2 (Cell.smap []) (by decide)⟩

/-- On the generic encode path, a successful parse returns an RR whose
header is the one built from the synthesized line: owner made fully
qualified, resolved type code, internet class, substituted TTL. -/
theorem encode_generic_header (r : RecordConfig) (rdtype : Nat) (rr : RR)
    (hty : StringToType r.RType = some rdtype)
    (h15 : rdtype ≠ 15) (h16 : rdtype ≠ 16) (hsp : ' ' ∉ r.NameFQDN)
    (hok : RecordConfig.RR r = .ok rr) :
    rr.Header = { Name := fqdn r.NameFQDN, Rrtype := rdtype, Class := ClassINET, Ttl := if r.TTL = 0 then DefaultTTL else r.TTL } := by
  rw [RR_generic_eval r rdtype hty h15 h16 hsp] at hok
  cases hrp : rrFromParts { Name := fqdn r.NameFQDN, Rrtype := rdtype, Class := ClassINET, Ttl := if r.TTL = 0 then DefaultTTL else r.TTL } rdtype (splitSp r.Target) with
  | none =>
    rw [hrp] at hok
    cases hok
  | some rr2 =>
    rw [hrp] at hok
    cases hok
    exact rrFromParts_header _ _ _ _ hrp

/-- **C1** fails as stated on the MX and TXT special cases: encoding an
MX record with TTL 0 yields a wire header whose TTL is 0, not the
default-TTL constant. -/
theorem C1_counterexample :
    RecordConfig.RR { RType := str "MX", Name := str "@", Target := str "mail.example.com.", TTL := 0, Metadata := [], NameFQDN := str "example.com", Priority := 10 }
      = .ok (.mx { Name := str "example.com.", Rrtype := 15, Class := 1, Ttl := 0 } 10 (str "mail.example.com.")) ∧
    (RR.mx { Name := str "example.com.", Rrtype := 15, Class := 1, Ttl := 0 } 10 (str "mail.example.com.")).Header.Ttl ≠ DefaultTTL :=
  ⟨by decide, by decide⟩

/-- **C1** (amended): the wire header is built from `NameFQDN` with a
trailing dot appended, the resolved numeric type code and the fixed
internet class; the TTL==0 → DefaultTTL substitution happens only on the
generic zone-line path, while the MX and TXT special cases carry the
record's TTL verbatim (0 stays 0). -/
theorem C1_encode_header (r : RecordConfig) (rdtype : Nat) (rr : RR)
    (hty : StringToType r.RType = some rdtype)
    (hsp : ' ' ∉ r.NameFQDN)
    (hnd : r.NameFQDN.getLast? ≠ some '.')
    (hok : RecordConfig.RR r = .ok rr) :
    rr.Header.Name = r.NameFQDN ++ ['.'] ∧
    rr.Header.Rrtype = rdtype ∧
    rr.Header.Class = ClassINET ∧
    rr.Header.Ttl = (if rdtype = 15 ∨ rdtype = 16 then r.TTL
                     else if r.TTL = 0 then DefaultTTL else r.TTL) := by
  have hfq : fqdn r.NameFQDN = r.NameFQDN ++ ['.'] := fqdn_no_dot hnd
  by_cases h15 : rdtype = 15
  · subst h15
    have hmx : r.RType = str "MX" := by
      rcases stringToType_cases hty with ⟨h1, h2⟩ | ⟨h1, h2⟩ | ⟨h1, h2⟩ | ⟨h1, h2⟩ |
        ⟨h1, h2⟩ | ⟨h1, h2⟩ | ⟨h1, h2⟩ <;> first | exact h1 | omega
    rw [RR_MX_eval r hmx] at hok
    cases hok
    exact ⟨rfl, rfl, rfl, by simp [RR.Header]⟩
  · by_cases h16 : rdtype = 16
    · subst h16
      have htxt : r.RType = str "TXT" := by
        rcases stringToType_cases hty with ⟨h1, h2⟩ | ⟨h1, h2⟩ | ⟨h1, h2⟩ | ⟨h1, h2⟩ |
          ⟨h1, h2⟩ | ⟨h1, h2⟩ | ⟨h1, h2⟩ <;> first | exact h1 | omega
      rw [RR_TXT_eval r htxt] at hok
      cases hok
      exact ⟨rfl, rfl, rfl, by simp [RR.Header]⟩
    · have hh := encode_generic_header r rdtype rr hty h15 h16 hsp hok
      rw [hh]
      refine ⟨hfq, rfl, rfl, ?_⟩
      simp [h15, h16]

theorem C1_witness :
    (RR.a { Name := str "www.example.com.", Rrtype := 1, Class := 1, Ttl := 300 } (.v4 1 2 3 4)).Header.Name = str "www.example.com" ++ ['.'] ∧
    (RR.a { Name := str "www.example.com.", Rrtype := 1, Class := 1, Ttl := 300 } (.v4 1 2 3 4)).Header.Rrtype = 1 ∧
    (RR.a { Name := str "www.example.com.", Rrtype := 1, Class := 1, Ttl := 300 } (.v4 1 2 3 4)).Header.Class = ClassINET ∧
    (RR.a { Name := str "www.example.com.", Rrtype := 1, Class := 1, Ttl := 300 } (.v4 1 2 3 4)).Header.Ttl = (if (1 : Nat) = 15 ∨ (1 : Nat) = 16 then 0 else if (0 : Nat) = 0 then DefaultTTL else 0) :=
  C1_encode_header
    { RType := str "A", Name := str "www", Target := str "1.2.3.4", TTL := 0, Metadata := [], NameFQDN := str "www.example.com", Priority := 0 }
    1 (RR.a { Name := str "www.example.com.", Rrtype := 1, Class := 1, Ttl := 300 } (.v4 1 2 3 4))
    (by decide) (by decide) (by decide) (by decide)

/-- **C9**: the encoder aborts the enclosing operation (`log.Fatalf`,
modelled as `.fatal`) exactly when the record type does not resolve, or
when the synthesized zone line of the generic path fails to parse; when
the type resolves and the record is well-formed (an MX/TXT special case,
or a parseable synthesized line) these abort branches are unreachable and
encode returns a wire RR. -/
theorem C9_encode_fatal_vs_ok (r : RecordConfig) :
    (StringToType r.RType = none →
      RecordConfig.RR r = .fatal (str "No such DNS type as " ++ r.RType)) ∧
    (∀ rdtype, StringToType r.RType = some rdtype → rdtype ≠ 15 → rdtype ≠ 16 →
      NewRR (synthLine r) = none →
      RecordConfig.RR r = .fatal (str "NewRR rejected RecordConfig: " ++ synthLine r)) ∧
    (∀ rdtype, StringToType r.RType = some rdtype →
      (rdtype = 15 ∨ rdtype = 16 ∨ (NewRR (synthLine r)).isSome = true) →
      (RecordConfig.RR r).isOk = true) := by
  refine ⟨?_, ?_, ?_⟩
  · intro hn
    simp [RecordConfig.RR, hn]
  · intro rdtype hty h15 h16 hnone
    simp only [RecordConfig.RR, hty]
    rw [if_neg h15, if_neg h16, hnone]
  · intro rdtype hty hwf
    simp only [RecordConfig.RR, hty]
    by_cases h15 : rdtype = 15
    · simp [h15, EncodeResult.isOk]
    · by_cases h16 : rdtype = 16
      · simp [h15, h16, EncodeResult.isOk]
      · rcases hwf with hw | hw | hw
        · exact absurd hw h15
        · exact absurd hw h16
        · rw [if_neg h15, if_neg h16]
          cases hx : NewRR (synthLine r) with
          | none => rw [hx] at hw; simp at hw
          | some rr2 => rfl

theorem C9_witness :
    RecordConfig.RR { RType := str "FOO", Name := str "x", Target := str "y", TTL := 5, Metadata := [], NameFQDN := str "x.example.com", Priority := 0 }
      = .fatal (str "No such DNS type as " ++ ({ RType := str "FOO", Name := str "x", Target := str "y", TTL := 5, Metadata := [], NameFQDN := str "x.example.com", Priority := 0 } : RecordConfig).RType) ∧
    (RecordConfig.RR { RType := str "A", Name := str "www", Target := str "1.2.3.4", TTL := 0, Metadata := [], NameFQDN := str "www.example.com", Priority := 0 }).isOk = true :=
  ⟨(C9_encode_fatal_vs_ok _).1 (by decide),
   (C9_encode_fatal_vs_ok _).2.2 1 (by decide) (Or.inr (Or.inr (by decide)))⟩

/-- **C2** fails as stated for the MX (and TXT) special cases: an MX
record with TTL 0 round-trips to a decoded TTL of 0, not `DefaultTTL`. -/
theorem C2_counterexample :
    RecordConfig.RR { RType := str "MX", Name := str "@", Target := str "mail.example.com.", TTL := 0, Metadata := [], NameFQDN := str "example.com", Priority := 10 }
      = .ok (.mx { Name := str "example.com.", Rrtype := 15, Class := 1, Ttl := 0 } 10 (str "mail.example.com.")) ∧
    RRToRecord (.mx { Name := str "example.com.", Rrtype := 15, Class := 1, Ttl := 0 } 10 (str "mail.example.com.")) (str "example.com")
      = .ok { RType := str "MX", Name := str "@", Target := str "mail.example.com.", TTL := 0, Metadata := [], NameFQDN := str "example.com", Priority := 10 } ∧
    (0 : Nat) ≠ DefaultTTL :=
  ⟨by decide, rfl, by decide⟩

/-- **C2** (amended): for every valid record of a round-trippable type
(A, AAAA, CNAME, MX, NS, TXT) with lowercase names consistent with the
zone origin, decoding the encoded wire RR reproduces `RType`, `Name`,
`NameFQDN` and `Target`, and for MX also `Priority`; a TTL-0 record
decodes back to `DefaultTTL` on the generic zone-line path, but to 0 for
the MX and TXT special cases (whose wire header carries the TTL
verbatim). -/
theorem C2_roundtrip (r : RecordConfig) (origin : Str) (rdtype : Nat)
    (rr : RR) (rc : RecordConfig)
    (hset : r.RType = str "A" ∨ r.RType = str "AAAA" ∨ r.RType = str "CNAME" ∨
            r.RType = str "MX" ∨ r.RType = str "NS" ∨ r.RType = str "TXT")
    (hty : StringToType r.RType = some rdtype)
    (hsp : ' ' ∉ r.NameFQDN)
    (hlowfq : lower r.NameFQDN = r.NameFQDN)
    (hlown : lower r.Name = r.Name)
    (ho : origin ≠ [])
    (hond : origin.getLast? ≠ some '.')
    (hfq : r.NameFQDN = (if r.Name = str "@" then origin
                         else r.Name ++ '.' :: origin))
    (htA : r.RType = str "A" →
      ' ' ∉ r.Target ∧ ∃ ip, parseIPv4 r.Target = some ip ∧ renderIP ip = r.Target)
    (htA6 : r.RType = str "AAAA" →
      ' ' ∉ r.Target ∧ ∃ ip, parseIPv6 r.Target = some ip ∧ renderIP ip = r.Target)
    (htName : (r.RType = str "CNAME" ∨ r.RType = str "NS") →
      r.Target ≠ [] ∧ ' ' ∉ r.Target ∧ r.Target.getLast? = some '.')
    (henc : RecordConfig.RR r = .ok rr)
    (hdec : RRToRecord rr origin = .ok rc) :
    rc.RType = r.RType ∧ rc.Name = r.Name ∧ rc.NameFQDN = r.NameFQDN ∧
    rc.Target = r.Target ∧ (r.RType = str "MX" → rc.Priority = r.Priority) ∧
    rc.TTL = (if r.TTL = 0 then (if rdtype = 15 ∨ rdtype = 16 then 0 else DefaultTTL)
              else r.TTL) := by
  have hnd : r.NameFQDN.getLast? ≠ some '.' := by
    by_cases hap : r.Name = str "@"
    · rw [hfq, if_pos hap]
      exact hond
    · rw [hfq, if_neg hap]
      rw [List.getLast?_append_of_ne_nil r.Name (by simp)]
      cases origin with
      | nil => exact absurd rfl ho
      | cons c cs =>
        rw [show ('.' :: c :: cs : Str).getLast? = (c :: cs : Str).getLast? from rfl]
        exact hond
  obtain ⟨hnfq, hnm⟩ := decoded_names r origin hlowfq hlown hond hfq
  rcases hset with hT | hT | hT | hT | hT | hT
  · -- A
    have hrd : rdtype = 1 := by
      have h1 : StringToType (str "A") = some 1 := by decide
      rw [hT, h1] at hty
      exact (Option.some.inj hty).symm
    subst hrd
    obtain ⟨hnsp, ip, hip, hren⟩ := htA hT
    rw [RR_generic_eval r 1 hty (by norm_num) (by norm_num) hsp] at henc
    rw [splitSp_no_space hnsp, rrFromParts_A _ _ _ hip] at henc
    cases henc
    injection hdec with h
    subst h
    refine ⟨by rw [hT]; rfl, ?_, ?_, hren, ?_, by simp [RR.Header]⟩
    · show lower (TrimDomainName (fqdn r.NameFQDN) origin) = r.Name
      rw [fqdn_no_dot hnd]
      exact hnm
    · show lower (trimSuffix (fqdn r.NameFQDN) (str ".")) = r.NameFQDN
      rw [fqdn_no_dot hnd]
      exact hnfq
    · intro hmx
      rw [hT] at hmx
      exact absurd hmx (by decide)
  · -- AAAA
    have hrd : rdtype = 28 := by
      have h1 : StringToType (str "AAAA") = some 28 := by decide
      rw [hT, h1] at hty
      exact (Option.some.inj hty).symm
    subst hrd
    obtain ⟨hnsp, ip, hip, hren⟩ := htA6 hT
    rw [RR_generic_eval r 28 hty (by norm_num) (by norm_num) hsp] at henc
    rw [splitSp_no_space hnsp, rrFromParts_AAAA _ _ _ hip] at henc
    cases henc
    injection hdec with h
    subst h
    refine ⟨by rw [hT]; rfl, ?_, ?_, hren, ?_, by simp [RR.Header]⟩
    · show lower (TrimDomainName (fqdn r.NameFQDN) origin) = r.Name
      rw [fqdn_no_dot hnd]
      exact hnm
    · show lower (trimSuffix (fqdn r.NameFQDN) (str ".")) = r.NameFQDN
      rw [fqdn_no_dot hnd]
      exact hnfq
    · intro hmx
      rw [hT] at hmx
      exact absurd hmx (by decide)
  · -- CNAME
    have hrd : rdtype = 5 := by
      have h1 : StringToType (str "CNAME") = some 5 := by decide
      rw [hT, h1] at hty
      exact (Option.some.inj hty).symm
    subst hrd
    obtain ⟨hne, hnsp, hdot⟩ := htName (Or.inl hT)
    rw [RR_generic_eval r 5 hty (by norm_num) (by norm_num) hsp] at henc
    rw [splitSp_no_space hnsp, rrFromParts_CNAME _ _ hne] at henc
    cases henc
    injection hdec with h
    subst h
    refine ⟨by rw [hT]; rfl, ?_, ?_, ?_, ?_, by simp [RR.Header]⟩
    · show lower (TrimDomainName (fqdn r.NameFQDN) origin) = r.Name
      rw [fqdn_no_dot hnd]
      exact hnm
    · show lower (trimSuffix (fqdn r.NameFQDN) (str ".")) = r.NameFQDN
      rw [fqdn_no_dot hnd]
      exact hnfq
    · show fqdn r.Target = r.Target
      exact fqdn_dot hne hdot
    · intro hmx
      rw [hT] at hmx
      exact absurd hmx (by decide)
  · -- MX
    have hrd : rdtype = 15 := by
      have h1 : StringToType (str "MX") = some 15 := by decide
      rw [hT, h1] at hty
      exact (Option.some.inj hty).symm
    subst hrd
    rw [RR_MX_eval r hT] at henc
    cases henc
    injection hdec with h
    subst h
    refine ⟨by rw [hT]; rfl, hnm, hnfq, rfl, fun _ => rfl, ?_⟩
    by_cases h0 : r.TTL = 0 <;> simp [RR.Header, h0]
  · -- NS
    have hrd : rdtype = 2 := by
      have h1 : StringToType (str "NS") = some 2 := by decide
      rw [hT, h1] at hty
      exact (Option.some.inj hty).symm
    subst hrd
    obtain ⟨hne, hnsp, hdot⟩ := htName (Or.inr hT)
    rw [RR_generic_eval r 2 hty (by norm_num) (by norm_num) hsp] at henc
    rw [splitSp_no_space hnsp, rrFromParts_NS _ _ hne] at henc
    cases henc
    injection hdec with h
    subst h
    refine ⟨by rw [hT]; rfl, ?_, ?_, ?_, ?_, by simp [RR.Header]⟩
    · show lower (TrimDomainName (fqdn r.NameFQDN) origin) = r.Name
      rw [fqdn_no_dot hnd]
      exact hnm
    · show lower (trimSuffix (fqdn r.NameFQDN) (str ".")) = r.NameFQDN
      rw [fqdn_no_dot hnd]
      exact hnfq
    · show fqdn r.Target = r.Target
      exact fqdn_dot hne hdot
    · intro hmx
      rw [hT] at hmx
      exact absurd hmx (by decide)
  · -- TXT
    have hrd : rdtype = 16 := by
      have h1 : StringToType (str "TXT") = some 16 := by decide
      rw [hT, h1] at hty
      exact (Option.some.inj hty).symm
    subst hrd
    rw [RR_TXT_eval r hT] at henc
    cases henc
    injection hdec with h
    subst h
    refine ⟨by rw [hT]; rfl, hnm, hnfq, rfl, ?_, ?_⟩
    · intro hmx
      rw [hT] at hmx
      exact absurd hmx (by decide)
    · by_cases h0 : r.TTL = 0 <;> simp [RR.Header, h0]

theorem C2_witness :
    rcA0.RType = rA0.RType ∧ rcA0.Name = rA0.Name ∧ rcA0.NameFQDN = rA0.NameFQDN ∧
    rcA0.Target = rA0.Target ∧ (rA0.RType = str "MX" → rcA0.Priority = rA0.Priority) ∧
    rcA0.TTL = (if rA0.TTL = 0 then (if (1 : Nat) = 15 ∨ (1 : Nat) = 16 then 0 else DefaultTTL)
                else rA0.TTL) :=
  C2_roundtrip rA0 (str "example.com") 1 rrA0 rcA0
    (Or.inl (by decide)) (by decide) (by decide) (by decide) (by decide) (by decide)
    (by decide) (by decide)
    (fun _ => ⟨by decide, IP.v4 1 2 3 4, by decide, by decide⟩)
    (fun hx => absurd hx (by decide))
    (fun hx => absurd hx (by decide))
    rfl rfl

end DnsControl
